import Mathlib

/-!
Verification of the real-time presence and typing-indicator coordinator of
`server/server.js` (socket.io connection handler).  The mutable server state
(`userSocketMap`, `typingUsers`, the pending `setTimeout` timers and a virtual
clock) is embedded as a Lean structure, and each socket.io event handler is
translated line by line into a state-transformer returning the list of emits
it performs, in order.  JavaScript object semantics are modelled faithfully:
an object is an association list with unique keys, assignment updates in
place or appends, `delete` removes the entry, and an `undefined` key used in
a property access is coerced to the string "undefined".  Truthiness guards
(`if (userId && receiverId)`) are modelled by `truthy`.
-/

namespace Chat

/-- One entry of the `typingUsers` object:
`typingUsers[userId] = { typingTo: receiverId, timeout: timeoutId }`. -/
structure TypingEntry where
  typingTo : String
  timeout : Nat
deriving DecidableEq, Repr

/-- A pending `setTimeout` registration: its handle (`timerId`), the absolute
time it is due, and the variables captured by the callback closure in the
typing handler: the sender `userId` and the payload `receiverId`. -/
structure PendingTimer where
  timerId : Nat
  fireAt : Nat
  sender : String
  receiverId : String
deriving DecidableEq, Repr

/-- An outbound socket.io emit.  `userTyping` and `userStoppedTyping` are
targeted at a single socket id (`io.to(socketId).emit`), while
`getOnlineUsers` is `io.emit`, a broadcast to every connected client. -/
inductive Emit where
  | userTyping (targetSocket : String) (userId : String)
  | userStoppedTyping (targetSocket : String) (userId : String)
  | getOnlineUsers (userIds : List String)
deriving DecidableEq, Repr

/-- The server's mutable state: the two global objects of `server.js`, the
set of pending timers together with a fresh-handle counter, and a virtual
clock (milliseconds). -/
structure ServerState where
  userSocketMap : List (String × String)
  typingUsers : List (String × TypingEntry)
  timers : List PendingTimer
  nextTimerId : Nat
  now : Nat
deriving DecidableEq, Repr

/-- JavaScript truthiness of an optional string: `undefined` and the empty
string are falsy. -/
def truthy : Option String → Bool
  | none => false
  | some s => s ≠ ""

/-- JavaScript property-key coercion: using `undefined` as an object key
accesses the key "undefined". -/
def jsKey : Option String → String
  | none => "undefined"
  | some s => s

/-- Object property read: `m[k]`, `none` when the key is absent. -/
def getKey {α : Type} (m : List (String × α)) (k : String) : Option α :=
  match m with
  | [] => none
  | (k', v) :: rest => if k' = k then some v else getKey rest k

/-- Object property write `m[k] = v`: update in place when the key exists,
else append (JavaScript insertion order). -/
def setKey {α : Type} (m : List (String × α)) (k : String) (v : α) :
    List (String × α) :=
  match m with
  | [] => [(k, v)]
  | (k', v') :: rest =>
      if k' = k then (k, v) :: rest else (k', v') :: setKey rest k v

/-- Object property removal `delete m[k]`. -/
def delKey {α : Type} (m : List (String × α)) (k : String) :
    List (String × α) :=
  match m with
  | [] => []
  | (k', v') :: rest => if k' = k then rest else (k', v') :: delKey rest k

/-- `Object.keys(m)`, in insertion order. -/
def keys {α : Type} (m : List (String × α)) : List String :=
  m.map Prod.fst

/-- `clearTimeout(tid)`: the pending timer with that handle never fires. -/
def clearTimeout (ts : List PendingTimer) (tid : Nat) : List PendingTimer :=
  ts.filter fun t => t.timerId ≠ tid

/-- The connection handler prefix (lines 44-51 of `server.js`):
`const userId = socket.handshake.query.userId;
if (userId) userSocketMap[userId] = socket.id;
io.emit("getOnlineUsers", Object.keys(userSocketMap));`. -/
def handleConnection (s : ServerState) (userId : Option String)
    (sockId : String) : ServerState × List Emit :=
  let m := if truthy userId then setKey s.userSocketMap (jsKey userId) sockId
           else s.userSocketMap
  ({ s with userSocketMap := m }, [Emit.getOnlineUsers (keys m)])

/-- The `socket.on("typing", ...)` handler: guarded by
`if (userId && receiverId)`; clears any existing timer for the sender,
stores `typingUsers[userId] = { typingTo: receiverId, timeout: setTimeout(..., 3000) }`,
then emits `userTyping` to the receiver's socket if the receiver is online.
The `setTimeout` callback closure captures `userId` and `receiverId`. -/
def handleTyping (s : ServerState) (userId receiverId : Option String) :
    ServerState × List Emit :=
  if truthy userId && truthy receiverId then
    let uid := jsKey userId
    let rid := jsKey receiverId
    let cleared :=
      match getKey s.typingUsers uid with
      | some entry => clearTimeout s.timers entry.timeout
      | none => s.timers
    let s1 : ServerState :=
      { s with typingUsers := setKey s.typingUsers uid ⟨rid, s.nextTimerId⟩,
               timers := cleared ++ [⟨s.nextTimerId, s.now + 3000, uid, rid⟩],
               nextTimerId := s.nextTimerId + 1 }
    match getKey s.userSocketMap rid with
    | some sid => (s1, [Emit.userTyping sid uid])
    | none => (s1, [])
  else (s, [])

/-- The `setTimeout` expiry callback of the typing handler, fired by the
runtime for handle `tid`; a no-op when that handle is no longer pending
(it was cleared).  The callback deletes `typingUsers[userId]` and emits
`userStoppedTyping` to `userSocketMap[receiverId]`, both `userId` and
`receiverId` captured at schedule time, the socket looked up at fire time. -/
def fireTimer (s : ServerState) (tid : Nat) : ServerState × List Emit :=
  match s.timers.find? (fun t => t.timerId == tid) with
  | none => (s, [])
  | some t =>
      let s1 : ServerState :=
        { s with typingUsers := delKey s.typingUsers t.sender,
                 timers := clearTimeout s.timers tid }
      match getKey s.userSocketMap t.receiverId with
      | some sid => (s1, [Emit.userStoppedTyping sid t.sender])
      | none => (s1, [])

/-- The `socket.on("stopTyping", ...)` handler: guarded by
`if (userId && typingUsers[userId])` (the payload `receiverId` is NOT part
of the guard); clears the stored timer, deletes the signal, then emits
`userStoppedTyping` to `userSocketMap[receiverId]` — the receiver looked up
from the event payload, not from the stored signal's `typingTo`. -/
def handleStopTyping (s : ServerState) (userId receiverId : Option String) :
    ServerState × List Emit :=
  if truthy userId then
    match getKey s.typingUsers (jsKey userId) with
    | some entry =>
        let s1 : ServerState :=
          { s with typingUsers := delKey s.typingUsers (jsKey userId),
                   timers := clearTimeout s.timers entry.timeout }
        (match getKey s.userSocketMap (jsKey receiverId) with
         | some sid => (s1, [Emit.userStoppedTyping sid (jsKey userId)])
         | none => (s1, []))
    | none => (s, [])
  else (s, [])

/-- The `socket.on("disconnect", ...)` handler: if a typing signal exists for
the closure's `userId`, clear its timer, delete it and emit
`userStoppedTyping` to the socket of the signal's stored `typingTo`; then
unconditionally `delete userSocketMap[userId]` and broadcast the updated
`Object.keys(userSocketMap)`.  The handler never reads `socket.id`, which is
why the disconnecting socket is an unused argument. -/
def handleDisconnect (s : ServerState) (userId : Option String)
    (_sockId : String) : ServerState × List Emit :=
  let uid := jsKey userId
  let p1 : ServerState × List Emit :=
    match getKey s.typingUsers uid with
    | some entry =>
        let s1 : ServerState :=
          { s with typingUsers := delKey s.typingUsers uid,
                   timers := clearTimeout s.timers entry.timeout }
        (match getKey s.userSocketMap entry.typingTo with
         | some sid => (s1, [Emit.userStoppedTyping sid uid])
         | none => (s1, []))
    | none => (s, [])
  let m := delKey p1.1.userSocketMap uid
  ({ p1.1 with userSocketMap := m }, p1.2 ++ [Emit.getOnlineUsers (keys m)])

/-- An event dispatched to the server: a connection (carrying the handshake
identity and the new socket id), an inbound `typing` / `stopTyping` event on
the connection of `userId`, a transport disconnect, the runtime firing a
pending timer, or time passing. -/
inductive Event where
  | connect (userId : Option String) (sockId : String)
  | typing (userId : Option String) (receiverId : Option String)
  | stopTyping (userId : Option String) (receiverId : Option String)
  | disconnect (userId : Option String) (sockId : String)
  | timerFire (tid : Nat)
  | elapse (d : Nat)
deriving DecidableEq, Repr

/-- One step of the event loop. -/
def stepEv (s : ServerState) (e : Event) : ServerState × List Emit :=
  match e with
  | .connect u sid => handleConnection s u sid
  | .typing u r => handleTyping s u r
  | .stopTyping u r => handleStopTyping s u r
  | .disconnect u sid => handleDisconnect s u sid
  | .timerFire tid => fireTimer s tid
  | .elapse d => ({ s with now := s.now + d }, [])

/-- Run a sequence of events, concatenating the emitted traffic in order. -/
def run (s : ServerState) : List Event → ServerState × List Emit
  | [] => (s, [])
  | e :: es =>
      let p := stepEv s e
      let q := run p.1 es
      (q.1, p.2 ++ q.2)

/-- The state at process start: both objects empty, no timers. -/
def initState : ServerState :=
  { userSocketMap := [], typingUsers := [], timers := [], nextTimerId := 1,
    now := 0 }

/-- A state is reachable when some event sequence produces it from start. -/
def Reachable (s : ServerState) : Prop :=
  ∃ evs : List Event, (run initState evs).1 = s

/-- Invariant of every reachable server state: the two objects have unique
keys, pending timer handles are unique and below the fresh counter, and the
pending timers are in exact correspondence with the stored typing signals:
each stored signal's `timeout` handle is pending with the matching captured
sender and receiver, and each pending timer is the one referenced by its
sender's current signal. -/
structure WF (s : ServerState) : Prop where
  nodupSock : (keys s.userSocketMap).Nodup
  nodupTyping : (keys s.typingUsers).Nodup
  nodupTimers : (s.timers.map PendingTimer.timerId).Nodup
  timersBound : ∀ t ∈ s.timers, t.timerId < s.nextTimerId
  entryTimer : ∀ u e, getKey s.typingUsers u = some e →
      ∃ t ∈ s.timers, t.timerId = e.timeout ∧ t.sender = u ∧
        t.receiverId = e.typingTo
  timerEntry : ∀ t ∈ s.timers,
      getKey s.typingUsers t.sender = some ⟨t.receiverId, t.timerId⟩

/-- Events that involve neither the sender `A` (as the identity behind a
`typing`, `stopTyping` or disconnect event) nor the timer handle `tid`.
Other users' events, new connections, other timers firing and the passage
of time are all allowed. -/
def leavesAlone (A : String) (tid : Nat) : Event → Bool
  | .typing u _ => jsKey u != A
  | .stopTyping u _ => jsKey u != A
  | .disconnect u _ => jsKey u != A
  | .timerFire t => t != tid
  | .connect _ _ => true
  | .elapse _ => true

/-- The `userStoppedTyping` emits about sender `A` contained in a trace. -/
def stoppedAbout (A : String) (ems : List Emit) : List Emit :=
  ems.filter fun em =>
    match em with
    | .userStoppedTyping _ uu => uu == A
    | _ => false

/-- Number of `getOnlineUsers` broadcasts in a trace. -/
def countOnline (ems : List Emit) : Nat :=
  ems.countP fun em =>
    match em with
    | .getOnlineUsers _ => true
    | _ => false

/-- The steps of the event loop that change registry membership: a
connection and a disconnect. -/
def isPresenceStep : Event → Bool
  | .connect _ _ => true
  | .disconnect _ _ => true
  | _ => false

/-- A registry operation: `register` is the handshake assignment
`userSocketMap[userId] = socket.id`, `unregister` the disconnect handler's
`delete userSocketMap[userId]`. -/
inductive RegOp where
  | register (u : String) (h : String)
  | unregister (u : String)
deriving DecidableEq, Repr

def opUser : RegOp → String
  | .register u _ => u
  | .unregister u => u

def isRegister : RegOp → Bool
  | .register _ _ => true
  | .unregister _ => false

def applyOp (m : List (String × String)) : RegOp → List (String × String)
  | .register u h => setKey m u h
  | .unregister u => delKey m u

def applyOps (m : List (String × String)) :
    List RegOp → List (String × String)
  | [] => m
  | op :: ops => applyOps (applyOp m op) ops

/-- Whether the last operation of the history that touches `u` is a
register; `d` is the answer for the empty remainder. -/
def lastStatus (u : String) (d : Bool) : List RegOp → Bool
  | [] => d
  | op :: ops => lastStatus u (if opUser op = u then isRegister op else d) ops

/-- The event-loop rendering of a registry history: a register is a
connection carrying the identity, an unregister is a disconnect. -/
def regEvents : List RegOp → List Event
  | [] => []
  | .register u h :: ops => Event.connect (some u) h :: regEvents ops
  | .unregister u :: ops => Event.disconnect (some u) "" :: regEvents ops

/-- Scenario: only user "a" connects. -/
def stateA : ServerState :=
  (run initState [Event.connect (some "a") "sa"]).1

/-- Scenario: users "a" and "b" connect. -/
def stateAB : ServerState :=
  (run initState [Event.connect (some "a") "sa",
    Event.connect (some "b") "sb"]).1

/-- Scenario: "a" and "b" connect, then "a" sends typing naming "b". -/
def stateABtyping : ServerState :=
  (run initState [Event.connect (some "a") "sa",
    Event.connect (some "b") "sb", Event.typing (some "a") (some "b")]).1

/-- Scenario: "a", "b" and "c" connect, then "a" sends typing naming "b". -/
def stateABCtyping : ServerState :=
  (run initState [Event.connect (some "a") "sa",
    Event.connect (some "b") "sb", Event.connect (some "c") "sc",
    Event.typing (some "a") (some "b")]).1

/-! ### Theorems: library lemmas, the invariant, and the claims -/

theorem keys_nil {α : Type} : keys ([] : List (String × α)) = [] := rfl

theorem keys_cons {α : Type} (p : String × α) (rest : List (String × α)) :
    keys (p :: rest) = p.1 :: keys rest := rfl

theorem setKey_cons_eq {α : Type} (a : String) (b : α)
    (rest : List (String × α)) (v : α) :
    setKey ((a, b) :: rest) a v = (a, v) :: rest := by
  simp [setKey]

theorem setKey_cons_ne {α : Type} (a : String) (b : α)
    (rest : List (String × α)) (k : String) (v : α) (h : a ≠ k) :
    setKey ((a, b) :: rest) k v = (a, b) :: setKey rest k v := by
  simp [setKey, h]

theorem delKey_cons_eq {α : Type} (a : String) (b : α)
    (rest : List (String × α)) :
    delKey ((a, b) :: rest) a = rest := by
  simp [delKey]

theorem delKey_cons_ne {α : Type} (a : String) (b : α)
    (rest : List (String × α)) (k : String) (h : a ≠ k) :
    delKey ((a, b) :: rest) k = (a, b) :: delKey rest k := by
  simp [delKey, h]

theorem getKey_setKey_self {α : Type} (m : List (String × α)) (k : String)
    (v : α) : getKey (setKey m k v) k = some v := by
  induction m with
  | nil => simp [setKey, getKey]
  | cons p rest ih =>
      obtain ⟨k', v'⟩ := p
      by_cases h : k' = k
      · simp [setKey, getKey, h]
      · simp [setKey, getKey, h, ih]

theorem getKey_setKey_ne {α : Type} (m : List (String × α)) (k k' : String)
    (v : α) (h : k' ≠ k) : getKey (setKey m k v) k' = getKey m k' := by
  have hkk : ¬ k = k' := fun hh => h hh.symm
  induction m with
  | nil => simp [setKey, getKey, hkk]
  | cons p rest ih =>
      obtain ⟨a, b⟩ := p
      by_cases ha : a = k
      · subst ha
        simp [setKey, getKey, hkk]
      · simp only [setKey, if_neg ha, getKey]
        by_cases hb : a = k'
        · simp [hb]
        · simp [hb, ih]

theorem getKey_delKey_ne {α : Type} (m : List (String × α)) (k k' : String)
    (h : k' ≠ k) : getKey (delKey m k) k' = getKey m k' := by
  induction m with
  | nil => simp [delKey]
  | cons p rest ih =>
      obtain ⟨a, b⟩ := p
      by_cases ha : a = k
      · subst ha
        have hkk : ¬ a = k' := fun hh => h hh.symm
        simp [delKey, getKey, hkk]
      · simp only [delKey, if_neg ha, getKey]
        by_cases hb : a = k'
        · simp [hb]
        · simp [hb, ih]

theorem mem_keys_setKey {α : Type} (m : List (String × α)) (k u : String)
    (v : α) : u ∈ keys (setKey m k v) ↔ u = k ∨ u ∈ keys m := by
  induction m with
  | nil => simp [setKey, keys]
  | cons p rest ih =>
      obtain ⟨a, b⟩ := p
      by_cases ha : a = k
      · subst ha
        rw [setKey_cons_eq]
        simp only [keys_cons, List.mem_cons]
        tauto
      · rw [setKey_cons_ne a b rest k v ha]
        simp only [keys_cons, List.mem_cons]
        rw [ih]
        tauto

theorem nodup_keys_setKey {α : Type} (m : List (String × α)) (k : String)
    (v : α) (h : (keys m).Nodup) : (keys (setKey m k v)).Nodup := by
  induction m with
  | nil => simp [setKey, keys]
  | cons p rest ih =>
      obtain ⟨a, b⟩ := p
      simp only [keys_cons, List.nodup_cons] at h
      by_cases ha : a = k
      · subst ha
        rw [setKey_cons_eq]
        simp only [keys_cons, List.nodup_cons]
        exact h
      · rw [setKey_cons_ne a b rest k v ha]
        simp only [keys_cons, List.nodup_cons]
        refine ⟨fun hmem => ?_, ih h.2⟩
        rcases (mem_keys_setKey rest k a v).mp hmem with h1 | h1
        · exact ha h1
        · exact h.1 h1

theorem delKey_sublist {α : Type} (m : List (String × α)) (k : String) :
    (delKey m k).Sublist m := by
  induction m with
  | nil => simp [delKey]
  | cons p rest ih =>
      obtain ⟨a, b⟩ := p
      by_cases ha : a = k
      · subst ha
        rw [delKey_cons_eq]
        exact List.sublist_cons_self _ _
      · rw [delKey_cons_ne a b rest k ha]
        exact ih.cons₂ _

theorem nodup_keys_delKey {α : Type} (m : List (String × α)) (k : String)
    (h : (keys m).Nodup) : (keys (delKey m k)).Nodup :=
  List.Nodup.sublist (List.Sublist.map Prod.fst (delKey_sublist m k)) h

theorem mem_keys_delKey_ne {α : Type} (m : List (String × α)) (k u : String)
    (h : u ≠ k) : u ∈ keys (delKey m k) ↔ u ∈ keys m := by
  induction m with
  | nil => simp [delKey]
  | cons p rest ih =>
      obtain ⟨a, b⟩ := p
      by_cases ha : a = k
      · subst ha
        rw [delKey_cons_eq]
        simp only [keys_cons, List.mem_cons]
        constructor
        · exact fun hu => Or.inr hu
        · rintro (hu | hu)
          · exact absurd hu h
          · exact hu
      · rw [delKey_cons_ne a b rest k ha]
        simp only [keys_cons, List.mem_cons]
        rw [ih]

theorem not_mem_keys_delKey_self {α : Type} (m : List (String × α))
    (k : String) (h : (keys m).Nodup) : k ∉ keys (delKey m k) := by
  induction m with
  | nil => simp [delKey, keys]
  | cons p rest ih =>
      obtain ⟨a, b⟩ := p
      simp only [keys_cons, List.nodup_cons] at h
      by_cases ha : a = k
      · subst ha
        rw [delKey_cons_eq]
        exact h.1
      · rw [delKey_cons_ne a b rest k ha]
        simp only [keys_cons, List.mem_cons]
        push_neg
        exact ⟨fun hh => ha hh.symm, ih h.2⟩

theorem getKey_eq_none_of_not_mem {α : Type} (m : List (String × α))
    (k : String) (h : k ∉ keys m) : getKey m k = none := by
  induction m with
  | nil => simp [getKey]
  | cons p rest ih =>
      obtain ⟨a, b⟩ := p
      simp only [keys_cons, List.mem_cons] at h
      push_neg at h
      have ha : ¬ a = k := fun hh => h.1 hh.symm
      simp [getKey, ha, ih h.2]

theorem mem_keys_of_getKey_some {α : Type} (m : List (String × α))
    (k : String) (v : α) (h : getKey m k = some v) : k ∈ keys m := by
  induction m with
  | nil => simp [getKey] at h
  | cons p rest ih =>
      obtain ⟨a, b⟩ := p
      by_cases ha : a = k
      · simp [keys_cons, ha]
      · simp only [getKey, if_neg ha] at h
        simp [keys_cons, ih h]

theorem getKey_delKey_self {α : Type} (m : List (String × α)) (k : String)
    (h : (keys m).Nodup) : getKey (delKey m k) k = none :=
  getKey_eq_none_of_not_mem _ _ (not_mem_keys_delKey_self m k h)

theorem delKey_of_not_mem {α : Type} (m : List (String × α)) (k : String)
    (h : k ∉ keys m) : delKey m k = m := by
  induction m with
  | nil => simp [delKey]
  | cons p rest ih =>
      obtain ⟨a, b⟩ := p
      simp only [keys_cons, List.mem_cons] at h
      push_neg at h
      have ha : ¬ a = k := fun hh => h.1 hh.symm
      simp [delKey, ha, ih h.2]

theorem mem_clearTimeout {ts : List PendingTimer} {tid : Nat}
    {t : PendingTimer} : t ∈ clearTimeout ts tid ↔ t ∈ ts ∧ t.timerId ≠ tid := by
  simp [clearTimeout, List.mem_filter]

theorem clearTimeout_sublist (ts : List PendingTimer) (tid : Nat) :
    (clearTimeout ts tid).Sublist ts :=
  List.filter_sublist ts

theorem find?_timerId_eq (ts : List PendingTimer)
    (hn : (ts.map PendingTimer.timerId).Nodup) (t : PendingTimer)
    (ht : t ∈ ts) :
    ts.find? (fun t' => t'.timerId == t.timerId) = some t := by
  induction ts with
  | nil => simp at ht
  | cons p rest ih =>
      simp only [List.map_cons, List.nodup_cons] at hn
      rcases List.mem_cons.mp ht with h | h
      · subst h
        simp [List.find?]
      · have hne : p.timerId ≠ t.timerId := by
          intro he
          have hm : t.timerId ∈ rest.map PendingTimer.timerId :=
            List.mem_map_of_mem _ h
          rw [← he] at hm
          exact hn.1 hm
        rw [List.find?_cons_of_neg _ (by simpa using hne)]
        exact ih hn.2 h

theorem find?_timerId_none (ts : List PendingTimer) (tid : Nat)
    (h : ∀ t ∈ ts, t.timerId ≠ tid) :
    ts.find? (fun t' => t'.timerId == tid) = none := by
  rw [List.find?_eq_none]
  intro t ht
  simpa using h t ht

theorem timer_eq_of_id_eq {s : ServerState} (h : WF s) {t1 t2 : PendingTimer}
    (h1 : t1 ∈ s.timers) (h2 : t2 ∈ s.timers)
    (he : t1.timerId = t2.timerId) : t1 = t2 :=
  List.inj_on_of_nodup_map h.nodupTimers h1 h2 he

theorem timeout_ne_of_sender_ne {s : ServerState} (h : WF s)
    {u1 u2 : String} {e1 e2 : TypingEntry}
    (h1 : getKey s.typingUsers u1 = some e1)
    (h2 : getKey s.typingUsers u2 = some e2) (hne : u1 ≠ u2) :
    e1.timeout ≠ e2.timeout := by
  intro he
  obtain ⟨t1, ht1, hid1, hs1, _⟩ := h.entryTimer u1 e1 h1
  obtain ⟨t2, ht2, hid2, hs2, _⟩ := h.entryTimer u2 e2 h2
  have : t1 = t2 := timer_eq_of_id_eq h ht1 ht2 (by rw [hid1, hid2, he])
  exact hne (by rw [← hs1, this, hs2])

theorem timerId_ne_timeout_of_sender_ne {s : ServerState} (h : WF s)
    {t : PendingTimer} {u : String} {e : TypingEntry} (ht : t ∈ s.timers)
    (hu : getKey s.typingUsers u = some e) (hne : t.sender ≠ u) :
    t.timerId ≠ e.timeout := by
  have h1 := h.timerEntry t ht
  have := timeout_ne_of_sender_ne h h1 hu hne
  simpa using this

theorem wf_initState : WF initState := by
  constructor <;> simp [initState, keys, getKey]

theorem handleConnection_eq (s : ServerState) (u : Option String)
    (sid : String) (hu : truthy u = true) :
    handleConnection s u sid =
      ({ s with userSocketMap := setKey s.userSocketMap (jsKey u) sid },
       [Emit.getOnlineUsers (keys (setKey s.userSocketMap (jsKey u) sid))]) := by
  simp [handleConnection, hu]

theorem handleConnection_anon (s : ServerState) (u : Option String)
    (sid : String) (hu : truthy u = false) :
    handleConnection s u sid =
      (s, [Emit.getOnlineUsers (keys s.userSocketMap)]) := by
  simp [handleConnection, hu]

theorem handleTyping_noop (s : ServerState) (u r : Option String)
    (h : (truthy u && truthy r) = false) : handleTyping s u r = (s, []) := by
  simp [handleTyping, h]

theorem handleTyping_state (s : ServerState) (u r : Option String)
    (hu : truthy u = true) (hr : truthy r = true) :
    (handleTyping s u r).1 =
      { s with
        typingUsers :=
          setKey s.typingUsers (jsKey u) ⟨jsKey r, s.nextTimerId⟩,
        timers :=
          (match getKey s.typingUsers (jsKey u) with
           | some entry => clearTimeout s.timers entry.timeout
           | none => s.timers) ++
            [⟨s.nextTimerId, s.now + 3000, jsKey u, jsKey r⟩],
        nextTimerId := s.nextTimerId + 1 } := by
  cases hget : getKey s.userSocketMap (jsKey r) <;>
    simp [handleTyping, hu, hr, hget]

theorem handleTyping_emits (s : ServerState) (u r : Option String)
    (hu : truthy u = true) (hr : truthy r = true) :
    (handleTyping s u r).2 =
      match getKey s.userSocketMap (jsKey r) with
      | some sid => [Emit.userTyping sid (jsKey u)]
      | none => [] := by
  cases hget : getKey s.userSocketMap (jsKey r) <;>
    simp [handleTyping, hu, hr, hget]

theorem handleStopTyping_noop (s : ServerState) (u r : Option String)
    (h : truthy u = false) : handleStopTyping s u r = (s, []) := by
  simp [handleStopTyping, h]

theorem handleStopTyping_absent (s : ServerState) (u r : Option String)
    (h : getKey s.typingUsers (jsKey u) = none) :
    handleStopTyping s u r = (s, []) := by
  by_cases hu : truthy u = true
  · simp [handleStopTyping, hu, h]
  · simp [handleStopTyping, Bool.of_not_eq_true hu]

theorem handleStopTyping_state (s : ServerState) (u r : Option String)
    (entry : TypingEntry) (hu : truthy u = true)
    (h : getKey s.typingUsers (jsKey u) = some entry) :
    (handleStopTyping s u r).1 =
      { s with typingUsers := delKey s.typingUsers (jsKey u),
               timers := clearTimeout s.timers entry.timeout } := by
  cases hget : getKey s.userSocketMap (jsKey r) <;>
    simp [handleStopTyping, hu, h, hget]

theorem handleStopTyping_emits (s : ServerState) (u r : Option String)
    (entry : TypingEntry) (hu : truthy u = true)
    (h : getKey s.typingUsers (jsKey u) = some entry) :
    (handleStopTyping s u r).2 =
      match getKey s.userSocketMap (jsKey r) with
      | some sid => [Emit.userStoppedTyping sid (jsKey u)]
      | none => [] := by
  cases hget : getKey s.userSocketMap (jsKey r) <;>
    simp [handleStopTyping, hu, h, hget]

theorem handleDisconnect_absent (s : ServerState) (u : Option String)
    (sid : String) (h : getKey s.typingUsers (jsKey u) = none) :
    handleDisconnect s u sid =
      ({ s with userSocketMap := delKey s.userSocketMap (jsKey u) },
       [Emit.getOnlineUsers (keys (delKey s.userSocketMap (jsKey u)))]) := by
  simp [handleDisconnect, h]

theorem handleDisconnect_state (s : ServerState) (u : Option String)
    (sid : String) (entry : TypingEntry)
    (h : getKey s.typingUsers (jsKey u) = some entry) :
    (handleDisconnect s u sid).1 =
      { s with typingUsers := delKey s.typingUsers (jsKey u),
               timers := clearTimeout s.timers entry.timeout,
               userSocketMap := delKey s.userSocketMap (jsKey u) } := by
  cases hget : getKey s.userSocketMap entry.typingTo <;>
    simp [handleDisconnect, h, hget]

theorem handleDisconnect_emits (s : ServerState) (u : Option String)
    (sid : String) (entry : TypingEntry)
    (h : getKey s.typingUsers (jsKey u) = some entry) :
    (handleDisconnect s u sid).2 =
      (match getKey s.userSocketMap entry.typingTo with
       | some rsid => [Emit.userStoppedTyping rsid (jsKey u)]
       | none => []) ++
      [Emit.getOnlineUsers (keys (delKey s.userSocketMap (jsKey u)))] := by
  cases hget : getKey s.userSocketMap entry.typingTo <;>
    simp [handleDisconnect, h, hget]

theorem fireTimer_noop (s : ServerState) (tid : Nat)
    (h : ∀ t ∈ s.timers, t.timerId ≠ tid) : fireTimer s tid = (s, []) := by
  simp [fireTimer, find?_timerId_none s.timers tid h]

theorem fireTimer_state (s : ServerState) (t : PendingTimer) (h : WF s)
    (ht : t ∈ s.timers) :
    (fireTimer s t.timerId).1 =
      { s with typingUsers := delKey s.typingUsers t.sender,
               timers := clearTimeout s.timers t.timerId } := by
  cases hget : getKey s.userSocketMap t.receiverId <;>
    simp [fireTimer, find?_timerId_eq s.timers h.nodupTimers t ht, hget]

theorem fireTimer_emits (s : ServerState) (t : PendingTimer) (h : WF s)
    (ht : t ∈ s.timers) :
    (fireTimer s t.timerId).2 =
      match getKey s.userSocketMap t.receiverId with
      | some sid => [Emit.userStoppedTyping sid t.sender]
      | none => [] := by
  cases hget : getKey s.userSocketMap t.receiverId <;>
    simp [fireTimer, find?_timerId_eq s.timers h.nodupTimers t ht, hget]

theorem wf_handleConnection (s : ServerState) (u : Option String)
    (sid : String) (h : WF s) : WF (handleConnection s u sid).1 := by
  by_cases hu : truthy u = true
  · rw [handleConnection_eq s u sid hu]
    exact ⟨nodup_keys_setKey _ _ _ h.nodupSock, h.nodupTyping, h.nodupTimers,
           h.timersBound, h.entryTimer, h.timerEntry⟩
  · rw [handleConnection_anon s u sid (Bool.of_not_eq_true hu)]
    exact h

theorem wf_removeSignal (s : ServerState) (x : String) (e : TypingEntry)
    (h : WF s) (hx : getKey s.typingUsers x = some e) :
    WF { s with typingUsers := delKey s.typingUsers x,
                timers := clearTimeout s.timers e.timeout } := by
  refine ⟨h.nodupSock, nodup_keys_delKey _ _ h.nodupTyping,
    List.Nodup.sublist (List.Sublist.map _ (clearTimeout_sublist _ _))
      h.nodupTimers, ?_, ?_, ?_⟩
  · intro t htm
    exact h.timersBound t (mem_clearTimeout.mp htm).1
  · intro u eu hu
    by_cases hux : u = x
    · subst hux
      rw [getKey_delKey_self _ _ h.nodupTyping] at hu
      exact absurd hu (by simp)
    · rw [getKey_delKey_ne _ _ _ hux] at hu
      obtain ⟨t, ht, hid, hs, hrr⟩ := h.entryTimer u eu hu
      refine ⟨t, mem_clearTimeout.mpr ⟨ht, ?_⟩, hid, hs, hrr⟩
      rw [hid]
      exact timeout_ne_of_sender_ne h hu hx hux
  · intro t htm
    obtain ⟨ht, hne⟩ := mem_clearTimeout.mp htm
    have h1 := h.timerEntry t ht
    have hsx : t.sender ≠ x := by
      intro hsx
      rw [hsx] at h1
      have h2 : e = ⟨t.receiverId, t.timerId⟩ := Option.some.inj (hx.symm.trans h1)
      exact hne (by rw [h2])
    rw [getKey_delKey_ne _ _ _ hsx]
    exact h1

theorem wf_handleStopTyping (s : ServerState) (u r : Option String)
    (h : WF s) : WF (handleStopTyping s u r).1 := by
  by_cases hu : truthy u = true
  · cases hget : getKey s.typingUsers (jsKey u) with
    | none =>
        rw [handleStopTyping_absent s u r hget]
        exact h
    | some entry =>
        rw [handleStopTyping_state s u r entry hu hget]
        exact wf_removeSignal s (jsKey u) entry h hget
  · rw [handleStopTyping_noop s u r (Bool.of_not_eq_true hu)]
    exact h

theorem wf_fireTimer (s : ServerState) (tid : Nat) (h : WF s) :
    WF (fireTimer s tid).1 := by
  by_cases hex : ∀ t ∈ s.timers, t.timerId ≠ tid
  · rw [fireTimer_noop s tid hex]
    exact h
  · push_neg at hex
    obtain ⟨t, ht, hid⟩ := hex
    subst hid
    rw [fireTimer_state s t h ht]
    have hentry := h.timerEntry t ht
    exact wf_removeSignal s t.sender ⟨t.receiverId, t.timerId⟩ h hentry

theorem wf_handleDisconnect (s : ServerState) (u : Option String)
    (sid : String) (h : WF s) : WF (handleDisconnect s u sid).1 := by
  cases hget : getKey s.typingUsers (jsKey u) with
  | none =>
      rw [handleDisconnect_absent s u sid hget]
      exact ⟨nodup_keys_delKey _ _ h.nodupSock, h.nodupTyping, h.nodupTimers,
             h.timersBound, h.entryTimer, h.timerEntry⟩
  | some entry =>
      rw [handleDisconnect_state s u sid entry hget]
      have h2 := wf_removeSignal s (jsKey u) entry h hget
      exact ⟨nodup_keys_delKey _ _ h2.nodupSock, h2.nodupTyping,
             h2.nodupTimers, h2.timersBound, h2.entryTimer, h2.timerEntry⟩

theorem nodup_ids_append_fresh (s : ServerState) (h : WF s)
    (cleared : List PendingTimer) (hsub : cleared.Sublist s.timers)
    (newT : PendingTimer) (hid : newT.timerId = s.nextTimerId) :
    ((cleared ++ [newT]).map PendingTimer.timerId).Nodup := by
  rw [List.map_append]
  refine List.nodup_append.mpr
    ⟨List.Nodup.sublist (hsub.map _) h.nodupTimers, by simp, ?_⟩
  intro x hx
  obtain ⟨t, ht, rfl⟩ := List.mem_map.mp hx
  have hb := h.timersBound t (hsub.subset ht)
  simp only [List.map_cons, List.map_nil, List.mem_cons, List.not_mem_nil,
    or_false]
  rw [hid]
  omega

theorem wf_handleTyping (s : ServerState) (u r : Option String)
    (h : WF s) : WF (handleTyping s u r).1 := by
  by_cases hg : (truthy u && truthy r) = true
  · obtain ⟨hu, hr⟩ := Bool.and_eq_true _ _ |>.mp hg
    rw [handleTyping_state s u r hu hr]
    cases hget : getKey s.typingUsers (jsKey u) with
    | none =>
        refine ⟨h.nodupSock, nodup_keys_setKey _ _ _ h.nodupTyping, ?_, ?_, ?_, ?_⟩
        · exact nodup_ids_append_fresh s h s.timers (List.Sublist.refl _) _ rfl
        · intro t htm
          show t.timerId < s.nextTimerId + 1
          rcases List.mem_append.mp htm with hm | hm
          · have := h.timersBound t hm
            omega
          · rw [List.mem_singleton.mp hm]
            show s.nextTimerId < s.nextTimerId + 1
            omega
        · intro uu eu hgu
          by_cases huu : uu = jsKey u
          · subst huu
            rw [getKey_setKey_self] at hgu
            refine ⟨⟨s.nextTimerId, s.now + 3000, jsKey u, jsKey r⟩,
              List.mem_append_right _ (List.mem_singleton.mpr rfl), ?_, rfl, ?_⟩
            · rw [← Option.some.inj hgu]
            · rw [← Option.some.inj hgu]
          · rw [getKey_setKey_ne _ _ _ _ huu] at hgu
            obtain ⟨t, ht, hid, hs, hrr⟩ := h.entryTimer uu eu hgu
            exact ⟨t, List.mem_append_left _ ht, hid, hs, hrr⟩
        · intro t htm
          rcases List.mem_append.mp htm with hm | hm
          · have h1 := h.timerEntry t hm
            have hsne : t.sender ≠ jsKey u := by
              intro hsx
              rw [hsx, hget] at h1
              exact Option.noConfusion h1
            rw [getKey_setKey_ne _ _ _ _ hsne]
            exact h1
          · rw [List.mem_singleton.mp hm]
            rw [getKey_setKey_self]
    | some entry =>
        refine ⟨h.nodupSock, nodup_keys_setKey _ _ _ h.nodupTyping, ?_, ?_, ?_, ?_⟩
        · exact nodup_ids_append_fresh s h _ (clearTimeout_sublist _ _) _ rfl
        · intro t htm
          show t.timerId < s.nextTimerId + 1
          rcases List.mem_append.mp htm with hm | hm
          · have := h.timersBound t (mem_clearTimeout.mp hm).1
            omega
          · rw [List.mem_singleton.mp hm]
            show s.nextTimerId < s.nextTimerId + 1
            omega
        · intro uu eu hgu
          by_cases huu : uu = jsKey u
          · subst huu
            rw [getKey_setKey_self] at hgu
            refine ⟨⟨s.nextTimerId, s.now + 3000, jsKey u, jsKey r⟩,
              List.mem_append_right _ (List.mem_singleton.mpr rfl), ?_, rfl, ?_⟩
            · rw [← Option.some.inj hgu]
            · rw [← Option.some.inj hgu]
          · rw [getKey_setKey_ne _ _ _ _ huu] at hgu
            obtain ⟨t, ht, hid, hs, hrr⟩ := h.entryTimer uu eu hgu
            refine ⟨t, List.mem_append_left _
              (mem_clearTimeout.mpr ⟨ht, ?_⟩), hid, hs, hrr⟩
            rw [hid]
            exact timeout_ne_of_sender_ne h hgu hget huu
        · intro t htm
          rcases List.mem_append.mp htm with hm | hm
          · obtain ⟨ht, hne⟩ := mem_clearTimeout.mp hm
            have h1 := h.timerEntry t ht
            have hsne : t.sender ≠ jsKey u := by
              intro hsx
              rw [hsx] at h1
              have h2 : entry = ⟨t.receiverId, t.timerId⟩ :=
                Option.some.inj (hget.symm.trans h1)
              exact hne (by rw [h2])
            rw [getKey_setKey_ne _ _ _ _ hsne]
            exact h1
          · rw [List.mem_singleton.mp hm]
            rw [getKey_setKey_self]
  · rw [handleTyping_noop s u r (Bool.of_not_eq_true hg)]
    exact h

theorem wf_stepEv (s : ServerState) (e : Event) (h : WF s) :
    WF (stepEv s e).1 := by
  cases e with
  | connect uu sid => exact wf_handleConnection s uu sid h
  | typing uu rr => exact wf_handleTyping s uu rr h
  | stopTyping uu rr => exact wf_handleStopTyping s uu rr h
  | disconnect uu sid => exact wf_handleDisconnect s uu sid h
  | timerFire tid => exact wf_fireTimer s tid h
  | elapse d => exact ⟨h.nodupSock, h.nodupTyping, h.nodupTimers,
      h.timersBound, h.entryTimer, h.timerEntry⟩

theorem wf_run (s : ServerState) (evs : List Event) (h : WF s) :
    WF (run s evs).1 := by
  induction evs generalizing s with
  | nil => exact h
  | cons e es ih => exact ih _ (wf_stepEv s e h)

theorem reachable_wf (s : ServerState) (h : Reachable s) : WF s := by
  obtain ⟨evs, rfl⟩ := h
  exact wf_run initState evs wf_initState

theorem stoppedAbout_append (A : String) (l1 l2 : List Emit) :
    stoppedAbout A (l1 ++ l2) = stoppedAbout A l1 ++ stoppedAbout A l2 :=
  List.filter_append _ _

theorem frame_step (s : ServerState) (A B : String) (tid d : Nat) (e : Event)
    (hwf : WF s)
    (hentry : getKey s.typingUsers A = some ⟨B, tid⟩)
    (htimer : (⟨tid, d, A, B⟩ : PendingTimer) ∈ s.timers)
    (he : leavesAlone A tid e = true) :
    getKey (stepEv s e).1.typingUsers A = some ⟨B, tid⟩ ∧
    (⟨tid, d, A, B⟩ : PendingTimer) ∈ (stepEv s e).1.timers ∧
    stoppedAbout A (stepEv s e).2 = [] := by
  cases e with
  | connect uu sid =>
      rw [show stepEv s (Event.connect uu sid) = handleConnection s uu sid
        from rfl]
      by_cases hu : truthy uu = true
      · rw [handleConnection_eq s uu sid hu]
        exact ⟨hentry, htimer, rfl⟩
      · rw [handleConnection_anon s uu sid (Bool.of_not_eq_true hu)]
        exact ⟨hentry, htimer, rfl⟩
  | typing uu rr =>
      have hne : jsKey uu ≠ A := by simpa [leavesAlone] using he
      have hAne : A ≠ jsKey uu := fun hh => hne hh.symm
      rw [show stepEv s (Event.typing uu rr) = handleTyping s uu rr from rfl]
      by_cases hg : (truthy uu && truthy rr) = true
      · obtain ⟨hu, hr⟩ := Bool.and_eq_true _ _ |>.mp hg
        rw [handleTyping_state s uu rr hu hr, handleTyping_emits s uu rr hu hr]
        cases hget : getKey s.typingUsers (jsKey uu) with
        | none =>
            refine ⟨?_, ?_, ?_⟩
            · show getKey
                (setKey s.typingUsers (jsKey uu) ⟨jsKey rr, s.nextTimerId⟩)
                A = some ⟨B, tid⟩
              rw [getKey_setKey_ne _ _ _ _ hAne]
              exact hentry
            · show (⟨tid, d, A, B⟩ : PendingTimer) ∈ s.timers ++
                [(⟨s.nextTimerId, s.now + 3000, jsKey uu, jsKey rr⟩ :
                  PendingTimer)]
              exact List.mem_append_left _ htimer
            · cases hg2 : getKey s.userSocketMap (jsKey rr) <;>
                simp [stoppedAbout, hg2]
        | some entry =>
            refine ⟨?_, ?_, ?_⟩
            · show getKey
                (setKey s.typingUsers (jsKey uu) ⟨jsKey rr, s.nextTimerId⟩)
                A = some ⟨B, tid⟩
              rw [getKey_setKey_ne _ _ _ _ hAne]
              exact hentry
            · show (⟨tid, d, A, B⟩ : PendingTimer) ∈
                clearTimeout s.timers entry.timeout ++
                [(⟨s.nextTimerId, s.now + 3000, jsKey uu, jsKey rr⟩ :
                  PendingTimer)]
              exact List.mem_append_left _ (mem_clearTimeout.mpr ⟨htimer,
                timerId_ne_timeout_of_sender_ne hwf htimer hget hAne⟩)
            · cases hg2 : getKey s.userSocketMap (jsKey rr) <;>
                simp [stoppedAbout, hg2]
      · rw [handleTyping_noop s uu rr (Bool.of_not_eq_true hg)]
        exact ⟨hentry, htimer, rfl⟩
  | stopTyping uu rr =>
      have hne : jsKey uu ≠ A := by simpa [leavesAlone] using he
      have hAne : A ≠ jsKey uu := fun hh => hne hh.symm
      rw [show stepEv s (Event.stopTyping uu rr) = handleStopTyping s uu rr
        from rfl]
      by_cases hu : truthy uu = true
      · cases hget : getKey s.typingUsers (jsKey uu) with
        | none =>
            rw [handleStopTyping_absent s uu rr hget]
            exact ⟨hentry, htimer, rfl⟩
        | some entry =>
            rw [handleStopTyping_state s uu rr entry hu hget,
              handleStopTyping_emits s uu rr entry hu hget]
            refine ⟨?_, ?_, ?_⟩
            · show getKey (delKey s.typingUsers (jsKey uu)) A = some ⟨B, tid⟩
              rw [getKey_delKey_ne _ _ _ hAne]
              exact hentry
            · show (⟨tid, d, A, B⟩ : PendingTimer) ∈
                clearTimeout s.timers entry.timeout
              exact mem_clearTimeout.mpr ⟨htimer,
                timerId_ne_timeout_of_sender_ne hwf htimer hget hAne⟩
            · cases hg2 : getKey s.userSocketMap (jsKey rr) <;>
                simp [stoppedAbout, hg2, hne]
      · rw [handleStopTyping_noop s uu rr (Bool.of_not_eq_true hu)]
        exact ⟨hentry, htimer, rfl⟩
  | disconnect uu sid =>
      have hne : jsKey uu ≠ A := by simpa [leavesAlone] using he
      have hAne : A ≠ jsKey uu := fun hh => hne hh.symm
      rw [show stepEv s (Event.disconnect uu sid) = handleDisconnect s uu sid
        from rfl]
      cases hget : getKey s.typingUsers (jsKey uu) with
      | none =>
          rw [handleDisconnect_absent s uu sid hget]
          exact ⟨hentry, htimer, by simp [stoppedAbout]⟩
      | some entry =>
          rw [handleDisconnect_state s uu sid entry hget,
            handleDisconnect_emits s uu sid entry hget]
          refine ⟨?_, ?_, ?_⟩
          · show getKey (delKey s.typingUsers (jsKey uu)) A = some ⟨B, tid⟩
            rw [getKey_delKey_ne _ _ _ hAne]
            exact hentry
          · show (⟨tid, d, A, B⟩ : PendingTimer) ∈
              clearTimeout s.timers entry.timeout
            exact mem_clearTimeout.mpr ⟨htimer,
              timerId_ne_timeout_of_sender_ne hwf htimer hget hAne⟩
          · rw [stoppedAbout_append]
            cases hg2 : getKey s.userSocketMap entry.typingTo <;>
              simp [stoppedAbout, hg2, hne]
  | timerFire t =>
      have hne : t ≠ tid := by simpa [leavesAlone] using he
      rw [show stepEv s (Event.timerFire t) = fireTimer s t from rfl]
      by_cases hex : ∀ t' ∈ s.timers, t'.timerId ≠ t
      · rw [fireTimer_noop s t hex]
        exact ⟨hentry, htimer, rfl⟩
      · push_neg at hex
        obtain ⟨t', ht', hid⟩ := hex
        subst hid
        have hsne : t'.sender ≠ A := by
          intro hsx
          have h1 := hwf.timerEntry t' ht'
          rw [hsx, hentry] at h1
          have h2 : (⟨B, tid⟩ : TypingEntry) = ⟨t'.receiverId, t'.timerId⟩ :=
            Option.some.inj h1
          have h3 : tid = t'.timerId := congrArg TypingEntry.timeout h2
          exact hne h3.symm
        have hAne : A ≠ t'.sender := fun hh => hsne hh.symm
        rw [fireTimer_state s t' hwf ht', fireTimer_emits s t' hwf ht']
        refine ⟨?_, ?_, ?_⟩
        · show getKey (delKey s.typingUsers t'.sender) A = some ⟨B, tid⟩
          rw [getKey_delKey_ne _ _ _ hAne]
          exact hentry
        · show (⟨tid, d, A, B⟩ : PendingTimer) ∈
            clearTimeout s.timers t'.timerId
          exact mem_clearTimeout.mpr ⟨htimer, Ne.symm hne⟩
        · cases hg2 : getKey s.userSocketMap t'.receiverId <;>
            simp [stoppedAbout, hg2, hsne]
  | elapse dd =>
      exact ⟨hentry, htimer, rfl⟩

theorem frame_run (s : ServerState) (A B : String) (tid d : Nat)
    (evs : List Event) (hwf : WF s)
    (hentry : getKey s.typingUsers A = some ⟨B, tid⟩)
    (htimer : (⟨tid, d, A, B⟩ : PendingTimer) ∈ s.timers)
    (hevs : ∀ e ∈ evs, leavesAlone A tid e = true) :
    getKey (run s evs).1.typingUsers A = some ⟨B, tid⟩ ∧
    (⟨tid, d, A, B⟩ : PendingTimer) ∈ (run s evs).1.timers ∧
    stoppedAbout A (run s evs).2 = [] := by
  induction evs generalizing s with
  | nil => exact ⟨hentry, htimer, rfl⟩
  | cons e es ih =>
      have hstep := frame_step s A B tid d e hwf hentry htimer
        (hevs e (List.mem_cons_self e es))
      have htail := ih (stepEv s e).1 (wf_stepEv s e hwf) hstep.1 hstep.2.1
        (fun e2 h2 => hevs e2 (List.mem_cons_of_mem e h2))
      refine ⟨htail.1, htail.2.1, ?_⟩
      show stoppedAbout A ((stepEv s e).2 ++ (run (stepEv s e).1 es).2) = []
      rw [stoppedAbout_append, hstep.2.2, htail.2.2]
      rfl

theorem fireTimer_timers_sublist (s : ServerState) (tid : Nat) :
    ((fireTimer s tid).1.timers).Sublist s.timers := by
  unfold fireTimer
  cases hf : s.timers.find? (fun t => t.timerId == tid) with
  | none => simp
  | some t =>
      cases hg : getKey s.userSocketMap t.receiverId <;>
        simp [hg, clearTimeout_sublist]

theorem fireTimer_nextTimerId (s : ServerState) (tid : Nat) :
    (fireTimer s tid).1.nextTimerId = s.nextTimerId := by
  unfold fireTimer
  cases hf : s.timers.find? (fun t => t.timerId == tid) with
  | none => simp
  | some t =>
      cases hg : getKey s.userSocketMap t.receiverId <;> simp [hg]

theorem stale_step (s : ServerState) (tid : Nat) (e : Event)
    (h1 : ∀ t ∈ s.timers, t.timerId ≠ tid) (h2 : tid < s.nextTimerId) :
    (∀ t ∈ (stepEv s e).1.timers, t.timerId ≠ tid) ∧
    tid < (stepEv s e).1.nextTimerId := by
  cases e with
  | connect uu sid =>
      by_cases hu : truthy uu = true
      · rw [show stepEv s (Event.connect uu sid) = handleConnection s uu sid
          from rfl, handleConnection_eq s uu sid hu]
        exact ⟨h1, h2⟩
      · rw [show stepEv s (Event.connect uu sid) = handleConnection s uu sid
          from rfl, handleConnection_anon s uu sid (Bool.of_not_eq_true hu)]
        exact ⟨h1, h2⟩
  | typing uu rr =>
      rw [show stepEv s (Event.typing uu rr) = handleTyping s uu rr from rfl]
      by_cases hg : (truthy uu && truthy rr) = true
      · obtain ⟨hu, hr⟩ := Bool.and_eq_true _ _ |>.mp hg
        rw [handleTyping_state s uu rr hu hr]
        refine ⟨?_, by show tid < s.nextTimerId + 1; omega⟩
        intro t htm
        rcases List.mem_append.mp htm with hm | hm
        · refine h1 t ?_
          cases hget : getKey s.typingUsers (jsKey uu) with
          | none =>
              rw [hget] at hm
              exact hm
          | some entry =>
              rw [hget] at hm
              exact (mem_clearTimeout.mp hm).1
        · rw [List.mem_singleton.mp hm]
          show s.nextTimerId ≠ tid
          omega
      · rw [handleTyping_noop s uu rr (Bool.of_not_eq_true hg)]
        exact ⟨h1, h2⟩
  | stopTyping uu rr =>
      rw [show stepEv s (Event.stopTyping uu rr) = handleStopTyping s uu rr
        from rfl]
      by_cases hu : truthy uu = true
      · cases hget : getKey s.typingUsers (jsKey uu) with
        | none =>
            rw [handleStopTyping_absent s uu rr hget]
            exact ⟨h1, h2⟩
        | some entry =>
            rw [handleStopTyping_state s uu rr entry hu hget]
            exact ⟨fun t htm => h1 t (mem_clearTimeout.mp htm).1, h2⟩
      · rw [handleStopTyping_noop s uu rr (Bool.of_not_eq_true hu)]
        exact ⟨h1, h2⟩
  | disconnect uu sid =>
      rw [show stepEv s (Event.disconnect uu sid) = handleDisconnect s uu sid
        from rfl]
      cases hget : getKey s.typingUsers (jsKey uu) with
      | none =>
          rw [handleDisconnect_absent s uu sid hget]
          exact ⟨h1, h2⟩
      | some entry =>
          rw [handleDisconnect_state s uu sid entry hget]
          exact ⟨fun t htm => h1 t (mem_clearTimeout.mp htm).1, h2⟩
  | timerFire t =>
      refine ⟨fun t' htm =>
        h1 t' ((fireTimer_timers_sublist s t).subset htm), ?_⟩
      show tid < (fireTimer s t).1.nextTimerId
      rw [fireTimer_nextTimerId]
      exact h2
  | elapse dd =>
      exact ⟨h1, h2⟩

theorem stale_run (s : ServerState) (tid : Nat) (evs : List Event)
    (h1 : ∀ t ∈ s.timers, t.timerId ≠ tid) (h2 : tid < s.nextTimerId) :
    (∀ t ∈ (run s evs).1.timers, t.timerId ≠ tid) ∧
    tid < (run s evs).1.nextTimerId := by
  induction evs generalizing s with
  | nil => exact ⟨h1, h2⟩
  | cons e es ih =>
      have hstep := stale_step s tid e h1 h2
      exact ih (stepEv s e).1 hstep.1 hstep.2

/-- Effect of the expiry callback actually firing on a live signal: the
signal is removed, its handle is gone from the pending set (so it can never
fire again), and exactly the single retraction recorded in the source is
emitted, to the receiver's socket as looked up at fire time. -/
theorem fire_effect (s : ServerState) (A B : String) (tid d : Nat)
    (hwf : WF s)
    (hentry : getKey s.typingUsers A = some ⟨B, tid⟩)
    (htimer : (⟨tid, d, A, B⟩ : PendingTimer) ∈ s.timers) :
    getKey (fireTimer s tid).1.typingUsers A = none ∧
    (∀ t ∈ (fireTimer s tid).1.timers, t.timerId ≠ tid) ∧
    tid < (fireTimer s tid).1.nextTimerId ∧
    (fireTimer s tid).2 =
      (match getKey s.userSocketMap B with
       | some sid => [Emit.userStoppedTyping sid A]
       | none => []) := by
  have hst : (fireTimer s tid).1 =
      { s with typingUsers := delKey s.typingUsers A,
               timers := clearTimeout s.timers tid } :=
    fireTimer_state s ⟨tid, d, A, B⟩ hwf htimer
  have hem : (fireTimer s tid).2 =
      (match getKey s.userSocketMap B with
       | some sid => [Emit.userStoppedTyping sid A]
       | none => []) :=
    fireTimer_emits s ⟨tid, d, A, B⟩ hwf htimer
  refine ⟨?_, ?_, ?_, hem⟩
  · rw [hst]
    show getKey (delKey s.typingUsers A) A = none
    exact getKey_delKey_self _ _ hwf.nodupTyping
  · rw [hst]
    intro t htm
    exact (mem_clearTimeout.mp htm).2
  · rw [hst]
    show tid < s.nextTimerId
    exact hwf.timersBound _ htimer

theorem countOnline_append (l1 l2 : List Emit) :
    countOnline (l1 ++ l2) = countOnline l1 + countOnline l2 :=
  List.countP_append _ _ _

theorem countOnline_stepEv (s : ServerState) (e : Event) :
    countOnline (stepEv s e).2 = if isPresenceStep e then 1 else 0 := by
  cases e with
  | connect uu sid =>
      by_cases hu : truthy uu = true
      · rw [show stepEv s (Event.connect uu sid) = handleConnection s uu sid
          from rfl, handleConnection_eq s uu sid hu]
        rfl
      · rw [show stepEv s (Event.connect uu sid) = handleConnection s uu sid
          from rfl, handleConnection_anon s uu sid (Bool.of_not_eq_true hu)]
        rfl
  | typing uu rr =>
      rw [show stepEv s (Event.typing uu rr) = handleTyping s uu rr from rfl]
      by_cases hg : (truthy uu && truthy rr) = true
      · obtain ⟨hu, hr⟩ := Bool.and_eq_true _ _ |>.mp hg
        rw [handleTyping_emits s uu rr hu hr]
        cases hg2 : getKey s.userSocketMap (jsKey rr) <;> rfl
      · rw [handleTyping_noop s uu rr (Bool.of_not_eq_true hg)]
        rfl
  | stopTyping uu rr =>
      rw [show stepEv s (Event.stopTyping uu rr) = handleStopTyping s uu rr
        from rfl]
      by_cases hu : truthy uu = true
      · cases hget : getKey s.typingUsers (jsKey uu) with
        | none =>
            rw [handleStopTyping_absent s uu rr hget]
            rfl
        | some entry =>
            rw [handleStopTyping_emits s uu rr entry hu hget]
            cases hg2 : getKey s.userSocketMap (jsKey rr) <;> rfl
      · rw [handleStopTyping_noop s uu rr (Bool.of_not_eq_true hu)]
        rfl
  | disconnect uu sid =>
      rw [show stepEv s (Event.disconnect uu sid) = handleDisconnect s uu sid
        from rfl]
      cases hget : getKey s.typingUsers (jsKey uu) with
      | none =>
          rw [handleDisconnect_absent s uu sid hget]
          rfl
      | some entry =>
          rw [handleDisconnect_emits s uu sid entry hget]
          cases hg2 : getKey s.userSocketMap entry.typingTo <;> rfl
  | timerFire t =>
      rw [show stepEv s (Event.timerFire t) = fireTimer s t from rfl]
      unfold fireTimer
      cases hf : s.timers.find? (fun t' => t'.timerId == t) with
      | none => rfl
      | some t' =>
          cases hg2 : getKey s.userSocketMap t'.receiverId <;> simp [hg2] <;> rfl
  | elapse dd => rfl

theorem countOnline_run (s : ServerState) (evs : List Event) :
    countOnline (run s evs).2 = evs.countP isPresenceStep := by
  induction evs generalizing s with
  | nil => rfl
  | cons e es ih =>
      show countOnline ((stepEv s e).2 ++ (run (stepEv s e).1 es).2) = _
      rw [countOnline_append, countOnline_stepEv, ih, List.countP_cons]
      by_cases hp : isPresenceStep e = true <;> simp [hp] <;> omega

theorem nodup_keys_applyOp (m : List (String × String)) (op : RegOp)
    (h : (keys m).Nodup) : (keys (applyOp m op)).Nodup := by
  cases op with
  | register u hh => exact nodup_keys_setKey _ _ _ h
  | unregister u => exact nodup_keys_delKey _ _ h

theorem mem_keys_applyOps (ops : List RegOp) (m : List (String × String))
    (u : String) (h : (keys m).Nodup) :
    (u ∈ keys (applyOps m ops) ↔
      lastStatus u (decide (u ∈ keys m)) ops = true) := by
  induction ops generalizing m with
  | nil => simp [applyOps, lastStatus]
  | cons op ops ih =>
      show u ∈ keys (applyOps (applyOp m op) ops) ↔ _
      rw [ih (applyOp m op) (nodup_keys_applyOp m op h)]
      show _ ↔ lastStatus u
        (if opUser op = u then isRegister op else decide (u ∈ keys m)) ops
          = true
      have hd : decide (u ∈ keys (applyOp m op)) =
          (if opUser op = u then isRegister op else decide (u ∈ keys m)) := by
        cases op with
        | register v hh =>
            by_cases hv : v = u
            · subst hv
              have hmem : v ∈ keys (setKey m v hh) :=
                (mem_keys_setKey m v v hh).mpr (Or.inl rfl)
              simp [opUser, isRegister, applyOp, hmem]
            · have huv : u ≠ v := fun hh2 => hv hh2.symm
              simp only [opUser, if_neg hv, applyOp]
              rw [decide_eq_decide]
              exact (mem_keys_setKey m v u hh).trans (by tauto)
        | unregister v =>
            by_cases hv : v = u
            · subst hv
              have hnm : v ∉ keys (delKey m v) := not_mem_keys_delKey_self m v h
              simp [opUser, isRegister, applyOp, hnm]
            · have huv : u ≠ v := fun hh2 => hv hh2.symm
              simp only [opUser, if_neg hv, applyOp]
              rw [decide_eq_decide]
              exact mem_keys_delKey_ne m v u huv
      rw [hd]

theorem truthy_some_of_ne (u : String) (h : u ≠ "") :
    truthy (some u) = true := by
  simp [truthy, h]

theorem handleConnection_map (s : ServerState) (u : String) (sid : String)
    (hu : u ≠ "") :
    (handleConnection s (some u) sid).1.userSocketMap =
      setKey s.userSocketMap u sid := by
  rw [handleConnection_eq s (some u) sid (truthy_some_of_ne u hu)]
  rfl

theorem handleDisconnect_map (s : ServerState) (u : Option String)
    (sid : String) :
    (handleDisconnect s u sid).1.userSocketMap =
      delKey s.userSocketMap (jsKey u) := by
  cases hget : getKey s.typingUsers (jsKey u) with
  | none => rw [handleDisconnect_absent s u sid hget]
  | some entry => rw [handleDisconnect_state s u sid entry hget]

theorem run_regEvents_map (ops : List RegOp) (s : ServerState)
    (hops : ∀ op ∈ ops, opUser op ≠ "") :
    (run s (regEvents ops)).1.userSocketMap = applyOps s.userSocketMap ops := by
  induction ops generalizing s with
  | nil => rfl
  | cons op ops ih =>
      cases op with
      | register u h =>
          have hu : u ≠ "" := hops _ (List.mem_cons_self _ _)
          show (run (stepEv s (Event.connect (some u) h)).1
            (regEvents ops)).1.userSocketMap = _
          rw [ih _ (fun op2 h2 => hops op2 (List.mem_cons_of_mem _ h2))]
          show applyOps (handleConnection s (some u) h).1.userSocketMap ops = _
          rw [handleConnection_map s u h hu]
          rfl
      | unregister u =>
          show (run (stepEv s (Event.disconnect (some u) "")).1
            (regEvents ops)).1.userSocketMap = _
          rw [ih _ (fun op2 h2 => hops op2 (List.mem_cons_of_mem _ h2))]
          show applyOps (handleDisconnect s (some u) "").1.userSocketMap ops = _
          rw [handleDisconnect_map s (some u) ""]
          rfl

/-- C2, counterexample: in the reachable state where "a" is typing to "b"
(signal `typingTo = "b"`, "b" online at socket "sb"), a stopTyping event from
"a" whose payload names "c" emits `userStoppedTyping` to "c"'s socket "sc",
not to "b"'s socket: the emit target comes from the event payload, refuting
the claim that it is determined by the stored signal for every payload. -/
theorem stopTyping_payload_target_cex :
    getKey stateABCtyping.typingUsers "a" = some ⟨"b", 1⟩ ∧
    getKey stateABCtyping.userSocketMap "b" = some "sb" ∧
    getKey stateABCtyping.userSocketMap "c" = some "sc" ∧
    (handleStopTyping stateABCtyping (some "a") (some "c")).2 =
      [Emit.userStoppedTyping "sc" "a"] ∧
    (handleStopTyping stateABCtyping (some "a") (some "c")).2 ≠
      [Emit.userStoppedTyping "sb" "a"] := by
  decide

/-- C2, amended: for every stopTyping event from a registered sender `A`
with an outstanding typing signal, the `userStoppedTyping` emit is targeted
at the socket of the `receiverId` carried in the event payload (looked up in
the registry at emit time, skipped when offline); the stored signal's
`typingTo` plays no part in choosing the target. -/
theorem stopTyping_payload_target (s : ServerState) (A : String)
    (r : Option String) (entry : TypingEntry) (hA : A ≠ "")
    (hentry : getKey s.typingUsers A = some entry) :
    (handleStopTyping s (some A) r).2 =
      match getKey s.userSocketMap (jsKey r) with
      | some sid => [Emit.userStoppedTyping sid A]
      | none => [] :=
  handleStopTyping_emits s (some A) r entry (truthy_some_of_ne A hA) hentry

/-- C2, witness: in the scenario of the counterexample the amended claim
computes the emit to "c"'s socket. -/
theorem stopTyping_payload_target_witness :
    (handleStopTyping stateABCtyping (some "a") (some "c")).2 =
      [Emit.userStoppedTyping "sc" "a"] :=
  stopTyping_payload_target stateABCtyping "a" (some "c") ⟨"b", 1⟩
    (by decide) (by decide)

/-- C5, counterexample: in the reachable state where "a" has an outstanding
typing signal, a stopTyping event from "a" whose payload lacks `receiverId`
emits nothing and does not crash, but it removes the signal and cancels its
timer — the typing-state tracker does not stay unchanged, refuting the
claim for stopTyping events. -/
theorem malformed_stopTyping_mutates_cex :
    getKey stateABtyping.typingUsers "a" = some ⟨"b", 1⟩ ∧
    (handleStopTyping stateABtyping (some "a") none).2 = [] ∧
    (handleStopTyping stateABtyping (some "a") none).1.typingUsers ≠
      stateABtyping.typingUsers ∧
    (handleStopTyping stateABtyping (some "a") none).1.timers ≠
      stateABtyping.timers := by
  decide

/-- C5, amended: a typing event whose payload lacks `receiverId` is a
complete no-op (no state change, no emit, no crash).  A stopTyping event
whose payload lacks `receiverId` emits nothing (assuming no user has the
literal id "undefined", the key JavaScript coerces `undefined` to), leaves
the connection registry unchanged and does not crash, but when the sender
has an outstanding typing signal it still removes that signal and cancels
its timer. -/
theorem malformed_receiver_handling (s : ServerState) (u : Option String)
    (hwf : WF s) (hundef : "undefined" ∉ keys s.userSocketMap) :
    handleTyping s u none = (s, []) ∧
    (handleStopTyping s u none).2 = [] ∧
    (handleStopTyping s u none).1.userSocketMap = s.userSocketMap ∧
    (∀ entry, truthy u = true → getKey s.typingUsers (jsKey u) = some entry →
      getKey (handleStopTyping s u none).1.typingUsers (jsKey u) = none ∧
      (∀ t ∈ (handleStopTyping s u none).1.timers,
        t.timerId ≠ entry.timeout)) := by
  have hty : handleTyping s u none = (s, []) := by
    apply handleTyping_noop
    cases truthy u <;> rfl
  by_cases hu : truthy u = true
  · cases hget : getKey s.typingUsers (jsKey u) with
    | none =>
        rw [handleStopTyping_absent s u none hget]
        refine ⟨hty, rfl, rfl, ?_⟩
        intro entry _ hg2
        exact absurd hg2 (by simp)
    | some entry =>
        have hst := handleStopTyping_state s u none entry hu hget
        have hem := handleStopTyping_emits s u none entry hu hget
        have hund : getKey s.userSocketMap (jsKey (none : Option String)) =
            none := getKey_eq_none_of_not_mem _ _ hundef
        refine ⟨hty, ?_, ?_, ?_⟩
        · rw [hem, hund]
        · rw [hst]
        · intro entry2 _ hg2
          have he2 : entry = entry2 := Option.some.inj hg2
          subst he2
          rw [hst]
          constructor
          · show getKey (delKey s.typingUsers (jsKey u)) (jsKey u) = none
            exact getKey_delKey_self _ _ hwf.nodupTyping
          · intro t htm
            exact (mem_clearTimeout.mp htm).2
  · rw [handleStopTyping_noop s u none (Bool.of_not_eq_true hu)]
    refine ⟨hty, rfl, rfl, ?_⟩
    intro entry hu2 _
    exact absurd hu2 hu

/-- C5, witness: at the reachable two-user state, a typing event from "a"
with no `receiverId` changes nothing and a stopTyping event with no
`receiverId` emits nothing and keeps the registry. -/
theorem malformed_receiver_handling_witness :
    handleTyping stateAB (some "a") none = (stateAB, []) ∧
    (handleStopTyping stateAB (some "a") none).2 = [] ∧
    (handleStopTyping stateAB (some "a") none).1.userSocketMap =
      stateAB.userSocketMap ∧
    (∀ entry, truthy (some "a") = true →
      getKey stateAB.typingUsers (jsKey (some "a")) = some entry →
      getKey (handleStopTyping stateAB (some "a") none).1.typingUsers
        (jsKey (some "a")) = none ∧
      (∀ t ∈ (handleStopTyping stateAB (some "a") none).1.timers,
        t.timerId ≠ entry.timeout)) :=
  malformed_receiver_handling stateAB (some "a")
    (reachable_wf stateAB ⟨[Event.connect (some "a") "sa",
      Event.connect (some "b") "sb"], rfl⟩) (by decide)

/-- C6: for every finite register/unregister history (rendered as the
corresponding connection and disconnect events of the event loop), a user id
is a key of `userSocketMap` exactly when its last operation in the history
is a register; and `delete userSocketMap[u]` for an absent `u` is a no-op. -/
theorem registry_history (ops : List RegOp) (u : String)
    (hops : ∀ op ∈ ops, opUser op ≠ "") :
    (u ∈ keys (run initState (regEvents ops)).1.userSocketMap ↔
      lastStatus u false ops = true) ∧
    (∀ m : List (String × String), u ∉ keys m → delKey m u = m) := by
  refine ⟨?_, fun m hm => delKey_of_not_mem m u hm⟩
  rw [run_regEvents_map ops initState hops]
  have h := mem_keys_applyOps ops initState.userSocketMap u
    (by show (keys ([] : List (String × String))).Nodup; simp [keys])
  have hd : decide (u ∈ keys initState.userSocketMap) = false := by
    show decide (u ∈ keys ([] : List (String × String))) = false
    simp [keys]
  rw [hd] at h
  exact h

/-- C6, witness: in the history register "x", unregister "x", register "y",
the id "x" is not online at the end ("x"'s last operation is the
unregister). -/
theorem registry_history_witness :
    ("x" ∈ keys (run initState (regEvents [RegOp.register "x" "s1",
        RegOp.unregister "x", RegOp.register "y" "s2"])).1.userSocketMap ↔
      lastStatus "x" false [RegOp.register "x" "s1", RegOp.unregister "x",
        RegOp.register "y" "s2"] = true) ∧
    (∀ m : List (String × String), "x" ∉ keys m → delKey m "x" = m) :=
  registry_history [RegOp.register "x" "s1", RegOp.unregister "x",
    RegOp.register "y" "s2"] "x" (by decide)

/-- C7: in every reachable state the registry holds at most one entry per
user id, and registering the same id again leaves exactly one entry whose
socket is the one of the second registration. -/
theorem registry_single_entry (s : ServerState) (u h2 : String)
    (hs : Reachable s) (hu : u ≠ "") :
    (keys s.userSocketMap).count u ≤ 1 ∧
    getKey (handleConnection s (some u) h2).1.userSocketMap u = some h2 ∧
    (keys (handleConnection s (some u) h2).1.userSocketMap).count u = 1 := by
  have hwf := reachable_wf s hs
  refine ⟨List.nodup_iff_count_le_one.mp hwf.nodupSock u, ?_, ?_⟩
  · rw [handleConnection_map s u h2 hu]
    exact getKey_setKey_self _ _ _
  · rw [handleConnection_map s u h2 hu]
    exact List.count_eq_one_of_mem (nodup_keys_setKey _ _ _ hwf.nodupSock)
      ((mem_keys_setKey _ _ _ _).mpr (Or.inl rfl))

/-- C7, witness: re-registering "a" (already online at "sa") with socket
"s9" leaves exactly one entry for "a", holding "s9". -/
theorem registry_single_entry_witness :
    (keys stateAB.userSocketMap).count "a" ≤ 1 ∧
    getKey (handleConnection stateAB (some "a") "s9").1.userSocketMap "a" =
      some "s9" ∧
    (keys (handleConnection stateAB (some "a") "s9").1.userSocketMap).count
      "a" = 1 :=
  registry_single_entry stateAB "a" "s9"
    ⟨[Event.connect (some "a") "sa", Event.connect (some "b") "sb"], rfl⟩
    (by decide)

/-- C8: every connection step emits exactly one `getOnlineUsers` broadcast
carrying the post-registration key set, every disconnect step emits exactly
one, as its final emit, carrying the post-unregistration key set, and no
typing, stopTyping or timer-expiry step ever emits one; over any event
sequence the number of broadcasts equals the number of connection and
disconnect steps. -/
theorem presence_broadcast_discipline (s : ServerState) (u r : Option String)
    (sid : String) (tid : Nat) (evs : List Event) :
    (handleConnection s u sid).2 =
      [Emit.getOnlineUsers (keys (handleConnection s u sid).1.userSocketMap)] ∧
    countOnline (handleDisconnect s u sid).2 = 1 ∧
    (handleDisconnect s u sid).2.getLast? =
      some (Emit.getOnlineUsers
        (keys (handleDisconnect s u sid).1.userSocketMap)) ∧
    countOnline (handleTyping s u r).2 = 0 ∧
    countOnline (handleStopTyping s u r).2 = 0 ∧
    countOnline (fireTimer s tid).2 = 0 ∧
    countOnline (run s evs).2 = evs.countP isPresenceStep := by
  refine ⟨?_, ?_, ?_, ?_, ?_, ?_, countOnline_run s evs⟩
  · by_cases hu : truthy u = true
    · rw [handleConnection_eq s u sid hu]
    · rw [handleConnection_anon s u sid (Bool.of_not_eq_true hu)]
  · simpa using countOnline_stepEv s (Event.disconnect u sid)
  · cases hget : getKey s.typingUsers (jsKey u) with
    | none =>
        rw [handleDisconnect_absent s u sid hget]
        rfl
    | some entry =>
        rw [handleDisconnect_emits s u sid entry hget,
          handleDisconnect_state s u sid entry hget]
        cases hg2 : getKey s.userSocketMap entry.typingTo <;> rfl
  · simpa using countOnline_stepEv s (Event.typing u r)
  · simpa using countOnline_stepEv s (Event.stopTyping u r)
  · simpa using countOnline_stepEv s (Event.timerFire tid)

/-- C9: the disconnect handler deletes the registry entry of the closure's
identity unconditionally — it never compares the stored socket with the
disconnecting one — so when a stale connection of a re-registered user `u`
disconnects, `u` vanishes from the registry and from the broadcast payload
although the stored (newer) socket `h2` is still connected; the handler's
result is the same whatever socket disconnects. -/
theorem stale_disconnect_removes_user (s : ServerState)
    (u h2 hstale : String) (hs : Reachable s)
    (hreg : getKey s.userSocketMap u = some h2) (hu : u ≠ "") :
    (handleDisconnect s (some u) hstale).1.userSocketMap =
      delKey s.userSocketMap u ∧
    u ∉ keys (handleDisconnect s (some u) hstale).1.userSocketMap ∧
    (∃ pre : List Emit, (handleDisconnect s (some u) hstale).2 =
      pre ++ [Emit.getOnlineUsers (keys (delKey s.userSocketMap u))]) ∧
    (∀ other : String, handleDisconnect s (some u) other =
      handleDisconnect s (some u) hstale) := by
  have hwf := reachable_wf s hs
  have hmap : (handleDisconnect s (some u) hstale).1.userSocketMap =
      delKey s.userSocketMap u := handleDisconnect_map s (some u) hstale
  refine ⟨hmap, ?_, ?_, fun other => rfl⟩
  · rw [hmap]
    exact not_mem_keys_delKey_self _ _ hwf.nodupSock
  · cases hget : getKey s.typingUsers (jsKey (some u)) with
    | none =>
        rw [handleDisconnect_absent s (some u) hstale hget]
        exact ⟨[], rfl⟩
    | some entry =>
        rw [handleDisconnect_emits s (some u) hstale entry hget]
        exact ⟨_, rfl⟩

/-- C9, witness: "a" is online at "sa"; the disconnect handler run for "a"
(from any socket, here "old") removes "a" from the registry and broadcasts
a payload without "a". -/
theorem stale_disconnect_removes_user_witness :
    (handleDisconnect stateAB (some "a") "old").1.userSocketMap =
      delKey stateAB.userSocketMap "a" ∧
    "a" ∉ keys (handleDisconnect stateAB (some "a") "old").1.userSocketMap ∧
    (∃ pre : List Emit, (handleDisconnect stateAB (some "a") "old").2 =
      pre ++ [Emit.getOnlineUsers (keys (delKey stateAB.userSocketMap "a"))]) ∧
    (∀ other : String, handleDisconnect stateAB (some "a") other =
      handleDisconnect stateAB (some "a") "old") :=
  stale_disconnect_removes_user stateAB "a" "sa" "old"
    ⟨[Event.connect (some "a") "sa", Event.connect (some "b") "sb"], rfl⟩
    (by decide) (by decide)

/-- C4: when `A` disconnects while a signal `A`→`B` is outstanding and `B`
is online, the disconnect handler emits exactly one
`userStoppedTyping` to `B`'s socket followed by the presence broadcast of
the registry without `A`, in that order; the signal is removed, its timer
handle cancelled so that no expiry for it can ever fire afterwards, and `A`
is removed from the registry. -/
theorem disconnect_clears_typing (s s1 : ServerState) (A B sidB dsid : String)
    (tid d : Nat) (ems : List Emit)
    (hwf : WF s) (hA : A ≠ "")
    (hentry : getKey s.typingUsers A = some ⟨B, tid⟩)
    (htimer : (⟨tid, d, A, B⟩ : PendingTimer) ∈ s.timers)
    (hB : getKey s.userSocketMap B = some sidB)
    (h1 : handleDisconnect s (some A) dsid = (s1, ems)) :
    ems = [Emit.userStoppedTyping sidB A,
           Emit.getOnlineUsers (keys (delKey s.userSocketMap A))] ∧
    getKey s1.typingUsers A = none ∧
    (∀ t ∈ s1.timers, t.timerId ≠ tid) ∧
    s1.userSocketMap = delKey s.userSocketMap A ∧
    A ∉ keys s1.userSocketMap ∧
    (∀ evs : List Event,
      fireTimer (run s1 evs).1 tid = ((run s1 evs).1, [])) := by
  have hget : getKey s.typingUsers (jsKey (some A)) = some ⟨B, tid⟩ := hentry
  have hst : s1 =
      { s with typingUsers := delKey s.typingUsers (jsKey (some A)),
               timers := clearTimeout s.timers tid,
               userSocketMap := delKey s.userSocketMap (jsKey (some A)) } := by
    have h := handleDisconnect_state s (some A) dsid ⟨B, tid⟩ hget
    rw [h1] at h
    exact h
  have hems : ems = [Emit.userStoppedTyping sidB A,
      Emit.getOnlineUsers (keys (delKey s.userSocketMap A))] := by
    have h := handleDisconnect_emits s (some A) dsid ⟨B, tid⟩ hget
    rw [h1] at h
    rw [show getKey s.userSocketMap ((⟨B, tid⟩ : TypingEntry).typingTo) =
      some sidB from hB] at h
    exact h
  have htimers : ∀ t ∈ s1.timers, t.timerId ≠ tid := by
    rw [hst]
    intro t htm
    exact (mem_clearTimeout.mp htm).2
  refine ⟨hems, ?_, htimers, ?_, ?_, ?_⟩
  · rw [hst]
    show getKey (delKey s.typingUsers A) A = none
    exact getKey_delKey_self _ _ hwf.nodupTyping
  · rw [hst]
    rfl
  · rw [hst]
    show A ∉ keys (delKey s.userSocketMap A)
    exact not_mem_keys_delKey_self _ _ hwf.nodupSock
  · intro evs
    have hnext : tid < s1.nextTimerId := by
      rw [hst]
      exact hwf.timersBound _ htimer
    obtain ⟨ha, _⟩ := stale_run s1 tid evs htimers hnext
    exact fireTimer_noop _ tid ha

/-- C4, witness: "a" and "b" online, "a" typing to "b"; "a" disconnects. -/
theorem disconnect_clears_typing_witness :
    (handleDisconnect stateABtyping (some "a") "x").2 =
      [Emit.userStoppedTyping "sb" "a",
       Emit.getOnlineUsers (keys (delKey stateABtyping.userSocketMap "a"))] ∧
    getKey (handleDisconnect stateABtyping (some "a") "x").1.typingUsers "a" =
      none ∧
    (∀ t ∈ (handleDisconnect stateABtyping (some "a") "x").1.timers,
      t.timerId ≠ 1) ∧
    (handleDisconnect stateABtyping (some "a") "x").1.userSocketMap =
      delKey stateABtyping.userSocketMap "a" ∧
    "a" ∉ keys (handleDisconnect stateABtyping (some "a") "x").1.userSocketMap ∧
    (∀ evs : List Event,
      fireTimer
        (run (handleDisconnect stateABtyping (some "a") "x").1 evs).1 1 =
      ((run (handleDisconnect stateABtyping (some "a") "x").1 evs).1, [])) :=
  disconnect_clears_typing stateABtyping
    (handleDisconnect stateABtyping (some "a") "x").1 "a" "b" "sb" "x" 1 3000
    (handleDisconnect stateABtyping (some "a") "x").2
    (reachable_wf stateABtyping ⟨[Event.connect (some "a") "sa",
      Event.connect (some "b") "sb", Event.typing (some "a") (some "b")],
      rfl⟩)
    (by decide) (by decide) (by decide) (by decide) rfl

/-- C10: a typing event from `A` naming an offline `B` installs the signal
and its 3000ms timer anyway but skips the `userTyping` emit; the receiver's
socket is looked up again at expiry, so when `B` connects before the timer
fires, `B` receives `userStoppedTyping` from the expiry without ever having
received a `userTyping`. -/
theorem typing_offline_receiver (s s1 s2 s3 : ServerState) (A B sidB : String)
    (ems1 ems2 ems3 : List Emit)
    (hwf : WF s) (hA : A ≠ "") (hB : B ≠ "")
    (hoff : getKey s.userSocketMap B = none)
    (h1 : handleTyping s (some A) (some B) = (s1, ems1))
    (h2 : handleConnection s1 (some B) sidB = (s2, ems2))
    (h3 : fireTimer s2 s.nextTimerId = (s3, ems3)) :
    ems1 = [] ∧
    getKey s1.typingUsers A = some ⟨B, s.nextTimerId⟩ ∧
    (⟨s.nextTimerId, s.now + 3000, A, B⟩ : PendingTimer) ∈ s1.timers ∧
    ems2 = [Emit.getOnlineUsers (keys s2.userSocketMap)] ∧
    ems3 = [Emit.userStoppedTyping sidB A] ∧
    (∀ em ∈ ems1 ++ ems2 ++ ems3, ∀ sid uu,
      em ≠ Emit.userTyping sid uu) := by
  have hu := truthy_some_of_ne A hA
  have hr := truthy_some_of_ne B hB
  have hs1 : s1 =
      { s with
        typingUsers :=
          setKey s.typingUsers (jsKey (some A)) ⟨jsKey (some B), s.nextTimerId⟩,
        timers :=
          (match getKey s.typingUsers (jsKey (some A)) with
           | some entry => clearTimeout s.timers entry.timeout
           | none => s.timers) ++
            [⟨s.nextTimerId, s.now + 3000, jsKey (some A), jsKey (some B)⟩],
        nextTimerId := s.nextTimerId + 1 } := by
    have h := handleTyping_state s (some A) (some B) hu hr
    rw [h1] at h
    exact h
  have hem1 : ems1 = [] := by
    have h := handleTyping_emits s (some A) (some B) hu hr
    rw [h1] at h
    rw [show getKey s.userSocketMap (jsKey (some B)) = none from hoff] at h
    exact h
  have hentry1 : getKey s1.typingUsers A = some ⟨B, s.nextTimerId⟩ := by
    rw [hs1]
    show getKey (setKey s.typingUsers A ⟨B, s.nextTimerId⟩) A = _
    exact getKey_setKey_self _ _ _
  have htimer1 :
      (⟨s.nextTimerId, s.now + 3000, A, B⟩ : PendingTimer) ∈ s1.timers := by
    rw [hs1]
    exact List.mem_append_right _ (List.mem_singleton.mpr rfl)
  have hpair2 : (s2, ems2) =
      ({ s1 with
         userSocketMap := setKey s1.userSocketMap (jsKey (some B)) sidB },
       [Emit.getOnlineUsers
          (keys (setKey s1.userSocketMap (jsKey (some B)) sidB))]) := by
    rw [← h2]
    exact handleConnection_eq s1 (some B) sidB hr
  have hs2 : s2 =
      { s1 with
        userSocketMap := setKey s1.userSocketMap (jsKey (some B)) sidB } :=
    congrArg Prod.fst hpair2
  have hem2 : ems2 = [Emit.getOnlineUsers
      (keys (setKey s1.userSocketMap (jsKey (some B)) sidB))] :=
    congrArg Prod.snd hpair2
  have hwf1 : WF s1 := by
    have h := wf_handleTyping s (some A) (some B) hwf
    rw [h1] at h
    exact h
  have hwf2 : WF s2 := by
    have h := wf_handleConnection s1 (some B) sidB hwf1
    rw [h2] at h
    exact h
  have hentry2 : getKey s2.typingUsers A = some ⟨B, s.nextTimerId⟩ := by
    rw [hs2]
    exact hentry1
  have htimer2 :
      (⟨s.nextTimerId, s.now + 3000, A, B⟩ : PendingTimer) ∈ s2.timers := by
    rw [hs2]
    exact htimer1
  have hlook : getKey s2.userSocketMap B = some sidB := by
    rw [hs2]
    show getKey (setKey s1.userSocketMap B sidB) B = some sidB
    exact getKey_setKey_self _ _ _
  have hfe := fire_effect s2 A B s.nextTimerId (s.now + 3000) hwf2
    hentry2 htimer2
  have hem3 : ems3 = [Emit.userStoppedTyping sidB A] := by
    have h := hfe.2.2.2
    rw [h3] at h
    rw [hlook] at h
    exact h
  refine ⟨hem1, hentry1, htimer1, ?_, hem3, ?_⟩
  · rw [hem2, hs2]
  · rw [hem1, hem2, hem3]
    intro em hm sid uu
    simp only [List.nil_append, List.cons_append, List.nil_append,
      List.mem_cons, List.not_mem_nil, or_false] at hm
    rcases hm with h | h <;> subst h <;> intro hcon <;>
      exact Emit.noConfusion hcon

/-- C10, witness: only "a" online; "a" types to the offline "b"; "b" then
connects at "sb"; the timer fires. -/
theorem typing_offline_receiver_witness :
    (handleTyping stateA (some "a") (some "b")).2 = [] ∧
    getKey (handleTyping stateA (some "a") (some "b")).1.typingUsers "a" =
      some ⟨"b", stateA.nextTimerId⟩ ∧
    (⟨stateA.nextTimerId, stateA.now + 3000, "a", "b"⟩ : PendingTimer) ∈
      (handleTyping stateA (some "a") (some "b")).1.timers ∧
    (handleConnection (handleTyping stateA (some "a") (some "b")).1
        (some "b") "sb").2 =
      [Emit.getOnlineUsers
        (keys (handleConnection (handleTyping stateA (some "a") (some "b")).1
          (some "b") "sb").1.userSocketMap)] ∧
    (fireTimer (handleConnection
        (handleTyping stateA (some "a") (some "b")).1 (some "b") "sb").1
        stateA.nextTimerId).2 = [Emit.userStoppedTyping "sb" "a"] ∧
    (∀ em ∈ (handleTyping stateA (some "a") (some "b")).2 ++
        (handleConnection (handleTyping stateA (some "a") (some "b")).1
          (some "b") "sb").2 ++
        (fireTimer (handleConnection
          (handleTyping stateA (some "a") (some "b")).1 (some "b") "sb").1
          stateA.nextTimerId).2, ∀ sid uu,
      em ≠ Emit.userTyping sid uu) :=
  typing_offline_receiver stateA
    (handleTyping stateA (some "a") (some "b")).1
    (handleConnection (handleTyping stateA (some "a") (some "b")).1
      (some "b") "sb").1
    (fireTimer (handleConnection
      (handleTyping stateA (some "a") (some "b")).1 (some "b") "sb").1
      stateA.nextTimerId).1
    "a" "b" "sb"
    (handleTyping stateA (some "a") (some "b")).2
    (handleConnection (handleTyping stateA (some "a") (some "b")).1
      (some "b") "sb").2
    (fireTimer (handleConnection
      (handleTyping stateA (some "a") (some "b")).1 (some "b") "sb").1
      stateA.nextTimerId).2
    (reachable_wf stateA ⟨[Event.connect (some "a") "sa"], rfl⟩)
    (by decide) (by decide) (by decide) rfl rfl rfl

/-- C1: a typing event from `A` naming `B` installs the signal
`⟨B, fresh handle⟩` and a timer due exactly 3000ms later; if every event of
the following window leaves `A` and that handle alone, no retraction about
`A` is emitted in the window, the signal survives to the deadline, and the
timer firing removes it and emits exactly one `userStoppedTyping` about `A`,
to `B`'s socket as registered at fire time; the spent handle cannot fire
again. -/
theorem typing_auto_expiry (s s1 s2 s3 : ServerState) (A B : String)
    (ems1 ems2 ems3 : List Emit) (evs : List Event)
    (hwf : WF s) (hA : A ≠ "") (hB : B ≠ "")
    (hreg : A ∈ keys s.userSocketMap)
    (hevs : ∀ e ∈ evs, leavesAlone A s.nextTimerId e = true)
    (h1 : handleTyping s (some A) (some B) = (s1, ems1))
    (h2 : run s1 evs = (s2, ems2))
    (h3 : fireTimer s2 s.nextTimerId = (s3, ems3)) :
    getKey s1.typingUsers A = some ⟨B, s.nextTimerId⟩ ∧
    (⟨s.nextTimerId, s.now + 3000, A, B⟩ : PendingTimer) ∈ s1.timers ∧
    stoppedAbout A ems2 = [] ∧
    getKey s2.typingUsers A = some ⟨B, s.nextTimerId⟩ ∧
    getKey s3.typingUsers A = none ∧
    (∀ sid, getKey s2.userSocketMap B = some sid →
        ems3 = [Emit.userStoppedTyping sid A]) ∧
    fireTimer s3 s.nextTimerId = (s3, []) := by
  have hu := truthy_some_of_ne A hA
  have hr := truthy_some_of_ne B hB
  have hs1 : s1 =
      { s with
        typingUsers :=
          setKey s.typingUsers (jsKey (some A)) ⟨jsKey (some B), s.nextTimerId⟩,
        timers :=
          (match getKey s.typingUsers (jsKey (some A)) with
           | some entry => clearTimeout s.timers entry.timeout
           | none => s.timers) ++
            [⟨s.nextTimerId, s.now + 3000, jsKey (some A), jsKey (some B)⟩],
        nextTimerId := s.nextTimerId + 1 } := by
    have h := handleTyping_state s (some A) (some B) hu hr
    rw [h1] at h
    exact h
  have hentry1 : getKey s1.typingUsers A = some ⟨B, s.nextTimerId⟩ := by
    rw [hs1]
    show getKey (setKey s.typingUsers A ⟨B, s.nextTimerId⟩) A = _
    exact getKey_setKey_self _ _ _
  have htimer1 :
      (⟨s.nextTimerId, s.now + 3000, A, B⟩ : PendingTimer) ∈ s1.timers := by
    rw [hs1]
    exact List.mem_append_right _ (List.mem_singleton.mpr rfl)
  have hwf1 : WF s1 := by
    have h := wf_handleTyping s (some A) (some B) hwf
    rw [h1] at h
    exact h
  have hframe := frame_run s1 A B s.nextTimerId (s.now + 3000) evs hwf1
    hentry1 htimer1 hevs
  have hentry2 : getKey s2.typingUsers A = some ⟨B, s.nextTimerId⟩ := by
    have h := hframe.1
    rw [h2] at h
    exact h
  have htimer2 :
      (⟨s.nextTimerId, s.now + 3000, A, B⟩ : PendingTimer) ∈ s2.timers := by
    have h := hframe.2.1
    rw [h2] at h
    exact h
  have hquiet : stoppedAbout A ems2 = [] := by
    have h := hframe.2.2
    rw [h2] at h
    exact h
  have hwf2 : WF s2 := by
    have h := wf_run s1 evs hwf1
    rw [h2] at h
    exact h
  have hfe := fire_effect s2 A B s.nextTimerId (s.now + 3000) hwf2
    hentry2 htimer2
  have hgone : getKey s3.typingUsers A = none := by
    have h := hfe.1
    rw [h3] at h
    exact h
  have hdead : ∀ t ∈ s3.timers, t.timerId ≠ s.nextTimerId := by
    have h := hfe.2.1
    rw [h3] at h
    exact h
  refine ⟨hentry1, htimer1, hquiet, hentry2, hgone, ?_, ?_⟩
  · intro sid hsid
    have h := hfe.2.2.2
    rw [h3] at h
    rw [hsid] at h
    exact h
  · exact fireTimer_noop s3 s.nextTimerId hdead

/-- C1, witness: "a" and "b" online, "a" types to "b", 3000ms pass with no
other event, the timer fires: exactly one `userStoppedTyping` goes to "sb". -/
theorem typing_auto_expiry_witness :
    getKey (handleTyping stateAB (some "a") (some "b")).1.typingUsers "a" =
      some ⟨"b", stateAB.nextTimerId⟩ ∧
    (⟨stateAB.nextTimerId, stateAB.now + 3000, "a", "b"⟩ : PendingTimer) ∈
      (handleTyping stateAB (some "a") (some "b")).1.timers ∧
    stoppedAbout "a"
      (run (handleTyping stateAB (some "a") (some "b")).1
        [Event.elapse 3000]).2 = [] ∧
    getKey (run (handleTyping stateAB (some "a") (some "b")).1
      [Event.elapse 3000]).1.typingUsers "a" =
        some ⟨"b", stateAB.nextTimerId⟩ ∧
    getKey (fireTimer (run (handleTyping stateAB (some "a") (some "b")).1
      [Event.elapse 3000]).1 stateAB.nextTimerId).1.typingUsers "a" = none ∧
    (∀ sid, getKey (run (handleTyping stateAB (some "a") (some "b")).1
        [Event.elapse 3000]).1.userSocketMap "b" = some sid →
      (fireTimer (run (handleTyping stateAB (some "a") (some "b")).1
        [Event.elapse 3000]).1 stateAB.nextTimerId).2 =
        [Emit.userStoppedTyping sid "a"]) ∧
    fireTimer (fireTimer (run (handleTyping stateAB (some "a") (some "b")).1
        [Event.elapse 3000]).1 stateAB.nextTimerId).1 stateAB.nextTimerId =
      ((fireTimer (run (handleTyping stateAB (some "a") (some "b")).1
        [Event.elapse 3000]).1 stateAB.nextTimerId).1, []) :=
  typing_auto_expiry stateAB
    (handleTyping stateAB (some "a") (some "b")).1
    (run (handleTyping stateAB (some "a") (some "b")).1
      [Event.elapse 3000]).1
    (fireTimer (run (handleTyping stateAB (some "a") (some "b")).1
      [Event.elapse 3000]).1 stateAB.nextTimerId).1
    "a" "b"
    (handleTyping stateAB (some "a") (some "b")).2
    (run (handleTyping stateAB (some "a") (some "b")).1
      [Event.elapse 3000]).2
    (fireTimer (run (handleTyping stateAB (some "a") (some "b")).1
      [Event.elapse 3000]).1 stateAB.nextTimerId).2
    [Event.elapse 3000]
    (reachable_wf stateAB ⟨[Event.connect (some "a") "sa",
      Event.connect (some "b") "sb"], rfl⟩)
    (by decide) (by decide) (by decide) (by decide) rfl rfl rfl

/-- C3: while a signal `A`→`B` with timer handle `tid` is outstanding, a
second typing event from `A` naming `C` cancels the old timer (the spent
handle can never fire, so `B` gets nothing from it), replaces the signal by
`A`→`C` with a fresh timer due 3000ms after the second event, and emits only
`userTyping` to `C`'s socket — `B` receives no retraction; after a quiet
window the expiry sends exactly one `userStoppedTyping` about `A` to `C`'s
socket as registered at fire time and removes the signal. -/
theorem typing_redirect (s s1 s2 s3 : ServerState) (A B C sidC : String)
    (tid d : Nat) (ems1 ems2 ems3 : List Emit) (evs : List Event)
    (hwf : WF s) (hA : A ≠ "") (hC : C ≠ "")
    (hentry : getKey s.typingUsers A = some ⟨B, tid⟩)
    (htimer : (⟨tid, d, A, B⟩ : PendingTimer) ∈ s.timers)
    (hCon : getKey s.userSocketMap C = some sidC)
    (hevs : ∀ e ∈ evs, leavesAlone A s.nextTimerId e = true)
    (h1 : handleTyping s (some A) (some C) = (s1, ems1))
    (h2 : run s1 evs = (s2, ems2))
    (h3 : fireTimer s2 s.nextTimerId = (s3, ems3)) :
    ems1 = [Emit.userTyping sidC A] ∧
    (∀ t ∈ s1.timers, t.timerId ≠ tid) ∧
    getKey s1.typingUsers A = some ⟨C, s.nextTimerId⟩ ∧
    (⟨s.nextTimerId, s.now + 3000, A, C⟩ : PendingTimer) ∈ s1.timers ∧
    (∀ evs2 : List Event,
      fireTimer (run s1 evs2).1 tid = ((run s1 evs2).1, [])) ∧
    stoppedAbout A ems2 = [] ∧
    getKey s2.typingUsers A = some ⟨C, s.nextTimerId⟩ ∧
    (∀ sid, getKey s2.userSocketMap C = some sid →
      ems3 = [Emit.userStoppedTyping sid A]) ∧
    getKey s3.typingUsers A = none := by
  have hu := truthy_some_of_ne A hA
  have hr := truthy_some_of_ne C hC
  have hget : getKey s.typingUsers (jsKey (some A)) = some ⟨B, tid⟩ := hentry
  have hs1 : s1 =
      { s with
        typingUsers :=
          setKey s.typingUsers (jsKey (some A)) ⟨jsKey (some C), s.nextTimerId⟩,
        timers := clearTimeout s.timers tid ++
            [⟨s.nextTimerId, s.now + 3000, jsKey (some A), jsKey (some C)⟩],
        nextTimerId := s.nextTimerId + 1 } := by
    have h := handleTyping_state s (some A) (some C) hu hr
    rw [h1, hget] at h
    exact h
  have hem1 : ems1 = [Emit.userTyping sidC A] := by
    have h := handleTyping_emits s (some A) (some C) hu hr
    rw [h1] at h
    rw [show getKey s.userSocketMap (jsKey (some C)) = some sidC from hCon]
      at h
    exact h
  have hfresh : tid < s.nextTimerId := hwf.timersBound _ htimer
  have hcancel : ∀ t ∈ s1.timers, t.timerId ≠ tid := by
    rw [hs1]
    intro t htm
    rcases List.mem_append.mp htm with hm | hm
    · exact (mem_clearTimeout.mp hm).2
    · rw [List.mem_singleton.mp hm]
      show s.nextTimerId ≠ tid
      omega
  have hentry1 : getKey s1.typingUsers A = some ⟨C, s.nextTimerId⟩ := by
    rw [hs1]
    show getKey (setKey s.typingUsers A ⟨C, s.nextTimerId⟩) A = _
    exact getKey_setKey_self _ _ _
  have htimer1 :
      (⟨s.nextTimerId, s.now + 3000, A, C⟩ : PendingTimer) ∈ s1.timers := by
    rw [hs1]
    exact List.mem_append_right _ (List.mem_singleton.mpr rfl)
  have hwf1 : WF s1 := by
    have h := wf_handleTyping s (some A) (some C) hwf
    rw [h1] at h
    exact h
  have hframe := frame_run s1 A C s.nextTimerId (s.now + 3000) evs hwf1
    hentry1 htimer1 hevs
  have hentry2 : getKey s2.typingUsers A = some ⟨C, s.nextTimerId⟩ := by
    have h := hframe.1
    rw [h2] at h
    exact h
  have htimer2 :
      (⟨s.nextTimerId, s.now + 3000, A, C⟩ : PendingTimer) ∈ s2.timers := by
    have h := hframe.2.1
    rw [h2] at h
    exact h
  have hquiet : stoppedAbout A ems2 = [] := by
    have h := hframe.2.2
    rw [h2] at h
    exact h
  have hwf2 : WF s2 := by
    have h := wf_run s1 evs hwf1
    rw [h2] at h
    exact h
  have hfe := fire_effect s2 A C s.nextTimerId (s.now + 3000) hwf2
    hentry2 htimer2
  refine ⟨hem1, hcancel, hentry1, htimer1, ?_, hquiet, hentry2, ?_, ?_⟩
  · intro evs2
    have hnext : tid < s1.nextTimerId := by
      rw [hs1]
      show tid < s.nextTimerId + 1
      omega
    obtain ⟨ha, _⟩ := stale_run s1 tid evs2 hcancel hnext
    exact fireTimer_noop _ tid ha
  · intro sid hsid
    have h := hfe.2.2.2
    rw [h3] at h
    rw [hsid] at h
    exact h
  · have h := hfe.1
    rw [h3] at h
    exact h

/-- C3, witness: "a","b","c" online, "a" typing to "b" (handle 1); "a" then
types naming "c"; after a 3000ms quiet window the fresh timer (handle 2)
fires to "sc"; handle 1 is dead everywhere. -/
theorem typing_redirect_witness :
    (handleTyping stateABCtyping (some "a") (some "c")).2 =
      [Emit.userTyping "sc" "a"] ∧
    (∀ t ∈ (handleTyping stateABCtyping (some "a") (some "c")).1.timers,
      t.timerId ≠ 1) ∧
    getKey (handleTyping stateABCtyping (some "a")
      (some "c")).1.typingUsers "a" =
        some ⟨"c", stateABCtyping.nextTimerId⟩ ∧
    (⟨stateABCtyping.nextTimerId, stateABCtyping.now + 3000, "a", "c"⟩ :
      PendingTimer) ∈
      (handleTyping stateABCtyping (some "a") (some "c")).1.timers ∧
    (∀ evs2 : List Event,
      fireTimer (run (handleTyping stateABCtyping (some "a")
        (some "c")).1 evs2).1 1 =
      ((run (handleTyping stateABCtyping (some "a") (some "c")).1 evs2).1,
        [])) ∧
    stoppedAbout "a"
      (run (handleTyping stateABCtyping (some "a") (some "c")).1
        [Event.elapse 3000]).2 = [] ∧
    getKey (run (handleTyping stateABCtyping (some "a") (some "c")).1
      [Event.elapse 3000]).1.typingUsers "a" =
        some ⟨"c", stateABCtyping.nextTimerId⟩ ∧
    (∀ sid, getKey (run (handleTyping stateABCtyping (some "a")
        (some "c")).1 [Event.elapse 3000]).1.userSocketMap "c" = some sid →
      (fireTimer (run (handleTyping stateABCtyping (some "a")
        (some "c")).1 [Event.elapse 3000]).1 stateABCtyping.nextTimerId).2 =
        [Emit.userStoppedTyping sid "a"]) ∧
    getKey (fireTimer (run (handleTyping stateABCtyping (some "a")
      (some "c")).1 [Event.elapse 3000]).1
      stateABCtyping.nextTimerId).1.typingUsers "a" = none :=
  typing_redirect stateABCtyping
    (handleTyping stateABCtyping (some "a") (some "c")).1
    (run (handleTyping stateABCtyping (some "a") (some "c")).1
      [Event.elapse 3000]).1
    (fireTimer (run (handleTyping stateABCtyping (some "a") (some "c")).1
      [Event.elapse 3000]).1 stateABCtyping.nextTimerId).1
    "a" "b" "c" "sc" 1 3000
    (handleTyping stateABCtyping (some "a") (some "c")).2
    (run (handleTyping stateABCtyping (some "a") (some "c")).1
      [Event.elapse 3000]).2
    (fireTimer (run (handleTyping stateABCtyping (some "a") (some "c")).1
      [Event.elapse 3000]).1 stateABCtyping.nextTimerId).2
    [Event.elapse 3000]
    (reachable_wf stateABCtyping ⟨[Event.connect (some "a") "sa",
      Event.connect (some "b") "sb", Event.connect (some "c") "sc",
      Event.typing (some "a") (some "b")], rfl⟩)
    (by decide) (by decide) (by decide) (by decide) (by decide) (by decide)
    rfl rfl rfl

end Chat
